import Mathlib

/-!
Shallow embedding of the Werewolf rules engine of the questLine repository.

The embedding mirrors, definition by definition:
* `packages/types/src/werewolf.ts` (data model),
* `packages/game-logic/src/werewolf/win-conditions.ts` (`checkWinCondition`),
* `packages/game-logic/src/werewolf/actions.ts` (night actions),
* `packages/game-logic/src/werewolf/voting.ts` (`canVote`, `submitVote`,
  `tallyVotes`, `resolveVoting`),
* `packages/game-logic/src/werewolf/phases.ts` (`getNextPhase`,
  `canTransitionPhase`, `transitionPhase`, `advanceGameToNextPhase`),
* `packages/game-logic/src/werewolf/roles.ts` (`validateRoleConfiguration`),
* the Convex mutations `advancePhase`, `castVote`, `resolveNightActions`
  (modelled as pure functions over a single game document plus its
  `players` / `votes` rows; database ids, event-log inserts, scheduler
  calls and the `gameId` consistency checks of the single-game model are
  outside the state),
* `convex/lib/aiDecisions.ts` (`fallbackDecision`, `selectByDifficulty`),
  with the two `Math.random()` draws made explicit through an oracle.

Wall-clock fields (`timestamp`, `createdAt`, `updatedAt`) and purely
cosmetic fields (names, invite codes, descriptions) are dropped: no
verified property mentions them and no branch of the embedded code reads
them.  JavaScript `Record` objects built by repeated `rec[k] = (rec[k] ??
0) + 1` are modelled as association lists in key-insertion order, which is
exactly the order `Object.entries` iterates for string keys.
-/

namespace QuestLine

/-- Player identifiers (Convex document ids / client ids are strings). -/
abbrev PlayerId := String

/-- `GamePhase` from `packages/types/src/werewolf.ts`. -/
inductive GamePhase
  | setup
  | night
  | day
  | voting
  | resolution
  | ended
deriving DecidableEq

/-- `WinCondition` from `packages/types/src/werewolf.ts`. -/
inductive WinCondition
  | villagers
  | werewolves
  | none
deriving DecidableEq

/-- `WerewolfRole` from `packages/types/src/werewolf.ts`. -/
inductive WerewolfRole
  | villager
  | werewolf
  | seer
  | doctor
  | hunter
deriving DecidableEq

/-- `NightActionType` from `packages/types/src/werewolf.ts`. -/
inductive NightActionType
  | kill
  | investigate
  | protect
  | none
deriving DecidableEq

/-- `WerewolfPlayer` (role is `null` until assignment). -/
structure WerewolfPlayer where
  id : PlayerId
  role : Option WerewolfRole
  isAlive : Bool
  actionTokens : Nat
  hasActedThisRound : Bool
  hasVotedThisRound : Bool
deriving DecidableEq

/-- `NightAction` (timestamp dropped, see header). -/
structure NightAction where
  playerId : PlayerId
  targetId : Option PlayerId
  actionType : NightActionType
  round : Nat
deriving DecidableEq

/-- `Vote` (`targetId = null` encodes abstention; timestamp dropped). -/
structure Vote where
  voterId : PlayerId
  targetId : Option PlayerId
  round : Nat
deriving DecidableEq

/-- `WerewolfGameState` restricted to the fields the rules engine reads or
writes (identity, naming and timestamp fields dropped, see header). -/
structure WerewolfGameState where
  phase : GamePhase
  round : Nat
  players : List WerewolfPlayer
  nightActions : List NightAction
  votes : List Vote
  eliminatedToday : Option PlayerId
  killedTonight : Option PlayerId
  savedTonight : Option PlayerId
  winner : WinCondition
deriving DecidableEq

/-- `checkWinCondition` from `win-conditions.ts`. -/
def checkWinCondition (players : List WerewolfPlayer) : WinCondition :=
  let alivePlayers := players.filter (·.isAlive)
  let aliveWerewolves := alivePlayers.filter (fun p => p.role == some .werewolf)
  let aliveVillagers := alivePlayers.filter (fun p => !(p.role == some .werewolf))
  if aliveVillagers.length ≤ aliveWerewolves.length then .werewolves
  else if aliveWerewolves.length = 0 then .villagers
  else WinCondition.none

/-- Number of alive werewolves — the quantity `checkWinCondition` compares. -/
def aliveWerewolfCount (players : List WerewolfPlayer) : Nat :=
  ((players.filter (·.isAlive)).filter (fun p => p.role == some .werewolf)).length

/-- Number of alive non-werewolves — the quantity `checkWinCondition` compares. -/
def aliveNonWerewolfCount (players : List WerewolfPlayer) : Nat :=
  ((players.filter (·.isAlive)).filter (fun p => !(p.role == some .werewolf))).length

/-- Result shape `{ valid, reason? }` used by the validation helpers. -/
structure ValidationResult where
  valid : Bool
  reason : Option String
deriving DecidableEq

/-- `getNightActionType` from `actions.ts` (switch on the role string,
`default` covers `null` and `villager`/`hunter`). -/
def getNightActionType (role : Option WerewolfRole) : NightActionType :=
  match role with
  | some .werewolf => .kill
  | some .seer => .investigate
  | some .doctor => .protect
  | _ => NightActionType.none

/-- `canVote` from `voting.ts`. -/
def canVote (voter : WerewolfPlayer) (target : Option WerewolfPlayer)
    (state : WerewolfGameState) : ValidationResult :=
  if !voter.isAlive then
    ⟨false, some "Dead players cannot vote"⟩
  else if !(state.phase == .voting) then
    ⟨false, some "Voting only during voting phase"⟩
  else if voter.hasVotedThisRound then
    ⟨false, some "Already voted this round"⟩
  else if (match target with | some t => !t.isAlive | Option.none => false) then
    ⟨false, some "Cannot vote for dead players"⟩
  else
    ⟨true, Option.none⟩

/-- `submitVote` from `voting.ts`: appends the vote record and marks the
voter as having voted this round. -/
def submitVote (state : WerewolfGameState) (voterId : PlayerId)
    (targetId : Option PlayerId) : WerewolfGameState :=
  let vote : Vote := ⟨voterId, targetId, state.round⟩
  { state with
    votes := state.votes ++ [vote]
    players := state.players.map fun p =>
      if p.id == voterId then { p with hasVotedThisRound := true } else p }

/-- One step of `results[t] = (results[t] ?? 0) + 1` on a JavaScript object,
modelled as an association list in key-insertion order. -/
def bumpCount (results : List (PlayerId × Nat)) (k : PlayerId) :
    List (PlayerId × Nat) :=
  match results with
  | [] => [(k, 1)]
  | (k', c) :: rest =>
    if k' == k then (k', c + 1) :: rest else (k', c) :: bumpCount rest k

/-- The vote-counting loop of `tallyVotes`: builds the per-target counts
and the abstention count by walking the round's votes in order. -/
def buildResultsAux (results : List (PlayerId × Nat)) (abstentions : Nat) :
    List Vote → List (PlayerId × Nat) × Nat
  | [] => (results, abstentions)
  | v :: rest =>
    match v.targetId with
    | Option.none => buildResultsAux results (abstentions + 1) rest
    | some t => buildResultsAux (bumpCount results t) abstentions rest

/-- `results` / `abstentions` accumulation of `tallyVotes`. -/
def buildResults (votes : List Vote) : List (PlayerId × Nat) × Nat :=
  buildResultsAux [] 0 votes

/-- The leader/tie scan of `tallyVotes` over `Object.entries(results)`:
`if (count > maxVotes) {...; isTie = false} else if (count === maxVotes)
{ isTie = true }`. -/
def scanLeader : List (PlayerId × Nat) → Nat → Option PlayerId → Bool →
    Nat × Option PlayerId × Bool
  | [], maxVotes, leader, isTie => (maxVotes, leader, isTie)
  | (k, c) :: rest, maxVotes, leader, isTie =>
    if maxVotes < c then scanLeader rest c (some k) false
    else if c = maxVotes then scanLeader rest maxVotes leader true
    else scanLeader rest maxVotes leader isTie

/-- Return shape of `tallyVotes`. -/
structure TallyResult where
  results : List (PlayerId × Nat)
  abstentions : Nat
  leader : Option PlayerId
  isTie : Bool
deriving DecidableEq

/-- `tallyVotes` from `voting.ts`. -/
def tallyVotes (state : WerewolfGameState) : TallyResult :=
  let currentRoundVotes := state.votes.filter (fun v => v.round == state.round)
  let built := buildResults currentRoundVotes
  let scanned := scanLeader built.1 0 Option.none false
  ⟨built.1, built.2, scanned.2.1, scanned.2.2⟩

/-- `resolveVoting` from `voting.ts`. -/
def resolveVoting (state : WerewolfGameState)
    (hunterRevengeTargetId : Option PlayerId) : WerewolfGameState :=
  let t := tallyVotes state
  if t.isTie || t.leader.isNone then
    { state with eliminatedToday := Option.none }
  else
    match t.leader with
    | Option.none => { state with eliminatedToday := Option.none }
    | some leader =>
      match state.players.find? (fun p => p.id == leader) with
      | Option.none => { state with eliminatedToday := Option.none }
      | some eliminatedPlayer =>
        let updatedPlayers := state.players.map fun p =>
          if p.id == leader then { p with isAlive := false } else p
        let updatedPlayers :=
          match hunterRevengeTargetId with
          | some rid =>
            if eliminatedPlayer.role == some .hunter && !(rid == leader) then
              match updatedPlayers.find? (fun p => p.id == rid && p.isAlive) with
              | some _ =>
                updatedPlayers.map fun p =>
                  if p.id == rid then { p with isAlive := false } else p
              | Option.none => updatedPlayers
            else updatedPlayers
          | Option.none => updatedPlayers
        { state with players := updatedPlayers, eliminatedToday := some leader }

/-- `getMajorityTarget` from `actions.ts`: its `count > maxVotes` scan keeps
the first target reaching the running maximum (ties keep the earlier one). -/
def scanMax : List (PlayerId × Nat) → Nat → Option PlayerId → Option PlayerId
  | [], _, target => target
  | (k, c) :: rest, maxVotes, target =>
    if maxVotes < c then scanMax rest c (some k)
    else scanMax rest maxVotes target

/-- `getMajorityTarget` from `actions.ts`. -/
def getMajorityTarget (actions : List NightAction) : Option PlayerId :=
  if actions.length = 0 then Option.none
  else
    let votes := actions.foldl
      (fun acc a =>
        match a.targetId with
        | some t => bumpCount acc t
        | Option.none => acc) []
    scanMax votes 0 Option.none

/-- The werewolf kill target `resolveNightActions` computes: majority target
of the current round's `kill` actions. -/
def killTargetOf (state : WerewolfGameState) : Option PlayerId :=
  getMajorityTarget
    ((state.nightActions.filter (fun a => a.round == state.round)).filter
      (fun a => a.actionType == NightActionType.kill))

/-- The doctor protection target `resolveNightActions` computes: target of
the first `protect` action of the current round. -/
def protectTargetOf (state : WerewolfGameState) : Option PlayerId :=
  match (state.nightActions.filter (fun a => a.round == state.round)).find?
      (fun a => a.actionType == NightActionType.protect) with
  | some a => a.targetId
  | Option.none => Option.none

/-- `resolveNightActions` from `actions.ts`: the kill succeeds iff a kill
target exists and differs from the protected target. -/
def resolveNightActions (state : WerewolfGameState) : WerewolfGameState :=
  let killTarget := killTargetOf state
  let protectedTarget := protectTargetOf state
  let outcome :
      List WerewolfPlayer × Option PlayerId × Option PlayerId :=
    match killTarget with
    | some kt =>
      if !(protectedTarget == some kt) then
        (state.players.map
          (fun p => if p.id == kt then { p with isAlive := false } else p),
         some kt, Option.none)
      else if protectedTarget == some kt then
        (state.players, Option.none, some kt)
      else
        (state.players, Option.none, Option.none)
    | Option.none => (state.players, Option.none, Option.none)
  { state with
    players := outcome.1
    killedTonight := outcome.2.1
    savedTonight := outcome.2.2 }

/-- Result shape `{ canTransition, reason? }` of `canTransitionPhase`. -/
structure TransitionCheck where
  canTransition : Bool
  reason : Option String
deriving DecidableEq

/-- `getNextPhase` from `phases.ts` (the cyclic table:
`resolution` starts a new round at `night`). -/
def getNextPhase : GamePhase → GamePhase
  | .setup => .night
  | .night => .day
  | .day => .voting
  | .voting => .resolution
  | .resolution => .night
  | .ended => .ended

/-- `canTransitionPhase` from `phases.ts`. -/
def canTransitionPhase (state : WerewolfGameState) : TransitionCheck :=
  let alivePlayers := state.players.filter (·.isAlive)
  match state.phase with
  | .setup =>
    if !(state.players.all (fun p => p.role.isSome)) then
      ⟨false, some "Roles not assigned"⟩
    else if state.players.length < 4 then
      ⟨false, some "Need at least 4 players"⟩
    else ⟨true, Option.none⟩
  | .night =>
    let playersWithActions := alivePlayers.filter fun p =>
      p.role == some .werewolf || p.role == some .seer || p.role == some .doctor
    if !(playersWithActions.all (·.hasActedThisRound)) then
      ⟨false, some "Waiting for night actions"⟩
    else ⟨true, Option.none⟩
  | .day => ⟨true, Option.none⟩
  | .voting =>
    if !(alivePlayers.all (·.hasVotedThisRound)) then
      ⟨false, some "Waiting for all votes"⟩
    else ⟨true, Option.none⟩
  | .resolution => ⟨true, Option.none⟩
  | .ended => ⟨false, some "Game has ended"⟩

/-- `transitionPhase` from `phases.ts`: win check first (forcing `ended`),
otherwise the table transition, incrementing the round and clearing the
per-round flags on `resolution → night`, and nulling the
`eliminatedToday` / `killedTonight` / `savedTonight` report fields. -/
def transitionPhase (state : WerewolfGameState) : WerewolfGameState :=
  let nextPhase := getNextPhase state.phase
  let winCondition := checkWinCondition state.players
  if !(winCondition == WinCondition.none) then
    { state with phase := .ended, winner := winCondition }
  else
    let roundPlayers : Nat × List WerewolfPlayer :=
      if nextPhase == .night && state.phase == .resolution then
        (state.round + 1,
         state.players.map fun p =>
           { p with hasActedThisRound := false, hasVotedThisRound := false })
      else (state.round, state.players)
    { state with
      phase := nextPhase
      round := roundPlayers.1
      players := roundPlayers.2
      eliminatedToday := Option.none
      killedTonight := Option.none
      savedTonight := Option.none }

/-- `advanceGameToNextPhase` from `phases.ts`: the sanctioned entry point
that resolves the leaving phase's pending work before transitioning. -/
def advanceGameToNextPhase (state : WerewolfGameState)
    (hunterRevengeTargetId : Option PlayerId) : WerewolfGameState :=
  if !(canTransitionPhase state).canTransition then state
  else if state.phase == .night then
    transitionPhase (resolveNightActions state)
  else if state.phase == .voting then
    transitionPhase (resolveVoting state hunterRevengeTargetId)
  else transitionPhase state

/-- Which resolution step `advanceGameToNextPhase` applies before its table
transition, by leaving phase. -/
def resolvedFor (state : WerewolfGameState)
    (hunterRevengeTargetId : Option PlayerId) : WerewolfGameState :=
  if state.phase == .night then resolveNightActions state
  else if state.phase == .voting then resolveVoting state hunterRevengeTargetId
  else state

/-- `WerewolfSettings` restricted to the fields `validateRoleConfiguration`
reads.  Counts are integers (`Math.floor(playerCount / 2)` is `Int.fdiv`
on integral inputs). -/
structure WerewolfSettings where
  playerCount : Int
  werewolfCount : Int
  includeRoles : List WerewolfRole
deriving DecidableEq

/-- Result shape `{ valid, errors }` of `validateRoleConfiguration`. -/
structure RoleConfigCheck where
  valid : Bool
  errors : List String
deriving DecidableEq

/-- `validateRoleConfiguration` from `roles.ts`: pushes one error message
per violated constraint; `valid` iff no error was pushed. -/
def validateRoleConfiguration (settings : WerewolfSettings) : RoleConfigCheck :=
  let errors : List String := []
  let errors :=
    if settings.playerCount < 4 then errors ++ ["Minimum 4 players required"]
    else errors
  let errors :=
    if settings.werewolfCount < 1 then errors ++ ["At least 1 werewolf required"]
    else errors
  let errors :=
    if Int.fdiv settings.playerCount 2 ≤ settings.werewolfCount then
      errors ++ ["Werewolves cannot be majority at start"]
    else errors
  let errors :=
    if settings.playerCount < (settings.includeRoles.length : Int) then
      errors ++ ["Too many special roles for player count"]
    else errors
  ⟨errors.isEmpty, errors⟩

/-- A Convex `votes` row (game id and timestamp dropped: single-game model). -/
structure ConvexVote where
  voterId : PlayerId
  targetId : Option PlayerId
  round : Nat
deriving DecidableEq

/-- One Convex game document together with its `players` and `votes` rows
(single-game model).  The games table's `winner` field is optional and only
ever written by the `games.end` mutation; absent is modelled as
`WinCondition.none`. -/
structure ConvexGame where
  phase : GamePhase
  round : Nat
  winner : WinCondition
  players : List WerewolfPlayer
  votes : List ConvexVote
deriving DecidableEq

/-- `getNextPhase` of the Convex `advancePhase` mutation: index + 1 in the
linear list `["setup","night","day","voting","resolution","ended"]`, the
last entry mapping to itself.  Unlike the game-logic table, `resolution`
steps to `ended`, not back to `night`. -/
def convexGetNextPhase : GamePhase → GamePhase
  | .setup => .night
  | .night => .day
  | .day => .voting
  | .voting => .resolution
  | .resolution => .ended
  | .ended => .ended

/-- The Convex `advancePhase` mutation (event-log insert and scheduler call
dropped).  It performs no win evaluation, increments the round only when
the next phase is `night`, and clears the per-round flags only when the
next phase is `night` or `day`. -/
def convexAdvancePhase (game : ConvexGame) : ConvexGame :=
  if game.phase == .ended then game
  else
    let nextPhase := convexGetNextPhase game.phase
    let round := if nextPhase == .night then game.round + 1 else game.round
    let players :=
      if nextPhase == .night || nextPhase == .day then
        game.players.map fun p =>
          { p with hasActedThisRound := false, hasVotedThisRound := false }
      else game.players
    { game with phase := nextPhase, round := round, players := players }

/-- The `ctx.db.patch(previousVote._id, { targetId })` step of `castVote`:
updates the first vote row of this voter and round in place. -/
def patchFirstVote (votes : List ConvexVote) (round : Nat) (voterId : PlayerId)
    (targetId : Option PlayerId) : List ConvexVote :=
  match votes with
  | [] => []
  | v :: rest =>
    if v.round == round && v.voterId == voterId then
      { v with targetId := targetId } :: rest
    else v :: patchFirstVote rest round voterId targetId

/-- The Convex `castVote` mutation (event-log and `gameId` cross-checks
dropped in the single-game model): rejects outside `day`/`voting` and for
missing or dead voters; overwrites an existing vote row of this voter and
round, otherwise inserts a row and sets `hasVotedThisRound`. -/
def castVote (game : ConvexGame) (voterId : PlayerId)
    (targetId : Option PlayerId) : Except String ConvexGame :=
  if !(game.phase == .day) && !(game.phase == .voting) then
    Except.error "Votes are only allowed in day or voting phase"
  else
    match game.players.find? (fun p => p.id == voterId) with
    | Option.none => Except.error "Voter not in game"
    | some voter =>
      if !voter.isAlive then Except.error "Eliminated players cannot vote"
      else
        let roundVotes := game.votes.filter (fun v => v.round == game.round)
        match roundVotes.find? (fun v => v.voterId == voterId) with
        | some _ =>
          Except.ok
            { game with votes := patchFirstVote game.votes game.round voterId targetId }
        | Option.none =>
          Except.ok
            { game with
              votes := game.votes ++ [⟨voterId, targetId, game.round⟩]
              players := game.players.map fun p =>
                if p.id == voterId then { p with hasVotedThisRound := true } else p }

/-- A Convex `actions` row (game id and timestamp dropped). -/
structure ConvexAction where
  playerId : PlayerId
  targetId : Option PlayerId
  actionType : NightActionType
  round : Nat
deriving DecidableEq

/-- The kill-count scan of the Convex `resolveNightActions` mutation over
the round's `kill` actions (targets with `targetId` set). -/
def convexKillTarget (actions : List ConvexAction) : Option PlayerId :=
  let killTargets := actions.filter
    (fun a => a.actionType == NightActionType.kill && a.targetId.isSome)
  let killCounts := killTargets.foldl
    (fun acc a =>
      match a.targetId with
      | some t => bumpCount acc t
      | Option.none => acc) []
  scanMax killCounts 0 Option.none

/-- The protect-target set of the Convex `resolveNightActions` mutation. -/
def convexProtectTargets (actions : List ConvexAction) : List PlayerId :=
  (actions.filter
    (fun a => a.actionType == NightActionType.protect && a.targetId.isSome)).filterMap
    (·.targetId)

/-- The Convex `resolveNightActions` mutation reduced to the player it
patches dead (`null` when no kill lands): the majority kill target unless
that target is protected. -/
def convexResolveNight (actions : List ConvexAction) : Option PlayerId :=
  match convexKillTarget actions with
  | some e =>
    if (convexProtectTargets actions).contains e then Option.none else some e
  | Option.none => Option.none

/-- `{id, name}` candidate entries handed to the fallback policy. -/
structure Candidate where
  id : String
  name : String
deriving DecidableEq

/-- `ParsedDecision` from `convex/lib/aiDecisions.ts`. -/
structure ParsedDecision where
  targetId : Option String
  reasoning : String
deriving DecidableEq

/-- AI difficulty tiers. -/
inductive Difficulty
  | easy
  | medium
  | hard
deriving DecidableEq

/-- One investigation-result entry handed to the fallback policy. -/
structure InvestigationEntry where
  playerId : String
  isWerewolf : Bool
deriving DecidableEq

/-- `FallbackOptions` from `convex/lib/aiDecisions.ts`. -/
structure FallbackOptions where
  difficulty : Difficulty
  knownWerewolves : Option (List String)
  investigationResults : Option (List InvestigationEntry)
  selfId : Option String
deriving DecidableEq

/-- The `Math.random()` draws of `fallbackDecision`, made explicit:
`selfRoll` is the outcome of `Math.random() < selfChance` (the chance is
0.3/0.2/0.1 by difficulty; every outcome is possible at each tier), and
`pick n` is the outcome of `Math.floor(Math.random() * n)`, which lands in
`[0, n)` whenever `n > 0`. -/
structure RandOracle where
  selfRoll : Bool
  pick : Nat → Nat

/-- `selectByDifficulty` from `convex/lib/aiDecisions.ts`.  Out-of-range
indices (impossible for a real `Math.random()` draw, and excluded by the
oracle hypothesis in the theorems) fall back to a dummy candidate. -/
def selectByDifficulty (targets : List Candidate) (options : FallbackOptions)
    (rand : RandOracle) : ParsedDecision :=
  match options.difficulty with
  | .easy =>
    let idx := rand.pick targets.length
    ⟨some (targets.getD idx ⟨"", ""⟩).id,
     "Random selection (easy difficulty fallback)"⟩
  | .medium =>
    let halfIdx := max (targets.length / 2) 1
    let pool := targets.take halfIdx
    let idx := rand.pick pool.length
    ⟨some (pool.getD idx ⟨"", ""⟩).id,
     "Semi-strategic selection (medium difficulty fallback)"⟩
  | .hard =>
    match options.investigationResults with
    | some results =>
      if !results.isEmpty then
        let investigated := results.map (·.playerId)
        let uninvestigated := targets.filter (fun t => !(investigated.contains t.id))
        match uninvestigated with
        | u :: _ =>
          ⟨some u.id, "Strategic: targeting uninvestigated player (hard fallback)"⟩
        | [] =>
          ⟨some (targets.headD ⟨"", ""⟩).id,
           "Strategic selection (hard difficulty fallback)"⟩
      else
        ⟨some (targets.headD ⟨"", ""⟩).id,
         "Strategic selection (hard difficulty fallback)"⟩
    | Option.none =>
      ⟨some (targets.headD ⟨"", ""⟩).id,
       "Strategic selection (hard difficulty fallback)"⟩

/-- The "filter out allies for werewolves" step of `fallbackDecision`
(skipped when the exclusion would empty the pool). -/
def allyFilteredTargets (role : String) (candidates : List Candidate)
    (options : FallbackOptions) : List Candidate :=
  match options.knownWerewolves with
  | some wolves =>
    if role == "werewolf" && !wolves.isEmpty then
      let filtered := candidates.filter (fun c => !(wolves.contains c.id))
      if 0 < filtered.length then filtered else candidates
    else candidates
  | Option.none => candidates

/-- The "target a confirmed werewolf during voting/day" step of
`fallbackDecision`. -/
def investigationPick (phase : String) (targets : List Candidate)
    (options : FallbackOptions) : Option Candidate :=
  match options.investigationResults with
  | some results =>
    if (phase == "voting" || phase == "day") && !results.isEmpty then
      match results.find? (·.isWerewolf) with
      | some knownWolf => targets.find? (fun t => t.id == knownWolf.playerId)
      | Option.none => Option.none
    else Option.none
  | Option.none => Option.none

/-- `fallbackDecision` from `convex/lib/aiDecisions.ts`. -/
def fallbackDecision (role phase : String) (candidates : List Candidate)
    (options : FallbackOptions) (rand : RandOracle) : ParsedDecision :=
  if candidates.length = 0 then
    ⟨Option.none, "No valid targets available"⟩
  else
    let targets := allyFilteredTargets role candidates options
    match investigationPick phase targets options with
    | some wolfTarget =>
      ⟨some wolfTarget.id, "Targeting a confirmed werewolf from investigation"⟩
    | Option.none =>
      match options.selfId with
      | some selfId =>
        if role == "doctor" && phase == "night" && rand.selfRoll then
          ⟨some selfId, "Self-protection for safety"⟩
        else selectByDifficulty targets options rand
      | Option.none => selectByDifficulty targets options rand

/-! ### Specification-side helper definitions

These are not translations of repository functions; they name the
quantities the claims talk about (vote counts, record counts, the strict
maximum of a count table) so the theorems can state them directly. -/

/-- Count associated with `k` in an association list, `0` when absent
(the value of `results[k] ?? 0`). -/
def lookupCount (m : List (PlayerId × Nat)) (k : PlayerId) : Nat :=
  match m with
  | [] => 0
  | (k', c) :: rest => if k' == k then c else lookupCount rest k

/-- The current round's votes of a game state. -/
def currentRoundVotes (state : WerewolfGameState) : List Vote :=
  state.votes.filter (fun v => v.round == state.round)

/-- The non-abstaining targets among the current round's votes. -/
def currentVoteTargets (state : WerewolfGameState) : List PlayerId :=
  (currentRoundVotes state).filterMap (·.targetId)

/-- How many of the current round's votes name `t`. -/
def countVotesFor (state : WerewolfGameState) (t : PlayerId) : Nat :=
  ((currentRoundVotes state).filter (fun v => v.targetId == some t)).length

/-- How many Convex vote rows a given voter has for a given round. -/
def voteRecordCount (votes : List ConvexVote) (voterId : PlayerId)
    (round : Nat) : Nat :=
  (votes.filter (fun v => v.voterId == voterId && v.round == round)).length

/-- First key of an association list carrying the value `v`. -/
def firstAttain : List (PlayerId × Nat) → Nat → Option PlayerId
  | [], _ => Option.none
  | (k, c) :: rest, v => if c = v then some k else firstAttain rest v

/-- How many entries of an association list carry the value `v`. -/
def attainCount (m : List (PlayerId × Nat)) (v : Nat) : Nat :=
  (m.filter (fun p => p.2 == v)).length

/-- Maximum value of an association list, folded from an initial bound
(the running `maxVotes` of the scans). -/
def listMax : List (PlayerId × Nat) → Nat → Nat
  | [], maxVotes => maxVotes
  | (_, c) :: rest, maxVotes => listMax rest (max maxVotes c)

/-! ### Concrete game states for witnesses and counterexamples -/

/-- Build a player record concisely. -/
def mkPlayer (id : PlayerId) (role : Option WerewolfRole) (isAlive : Bool)
    (acted : Bool := false) (voted : Bool := false) : WerewolfPlayer :=
  ⟨id, role, isAlive, 0, acted, voted⟩

/-- Base game state for concrete scenarios. -/
def baseState (phase : GamePhase) (round : Nat)
    (players : List WerewolfPlayer) (nightActions : List NightAction := [])
    (votes : List Vote := []) : WerewolfGameState :=
  ⟨phase, round, players, nightActions, votes,
   Option.none, Option.none, Option.none, WinCondition.none⟩

/-- A freshly created Convex game document (as `games.create` writes it:
phase `setup`, round 0, no winner) with a three-seat roster. -/
def convexStart : ConvexGame :=
  ⟨GamePhase.setup, 0, WinCondition.none,
   [mkPlayer "w1" (some .werewolf) true,
    mkPlayer "v1" (some .villager) true,
    mkPlayer "v2" (some .villager) true], []⟩

/-- The state the Convex `advancePhase` mutation reaches after four
advances from `convexStart`: phase `resolution`, round 1, winner still
`none`, roster untouched and undecided. -/
def convexResolutionGame : ConvexGame :=
  convexAdvancePhase (convexAdvancePhase (convexAdvancePhase
    (convexAdvancePhase convexStart)))

/-- A game-logic state in phase `resolution`, round 2, with an undecided
roster and stale per-round flags — the input of the C1 witness. -/
def resolutionState : WerewolfGameState :=
  baseState .resolution 2
    [mkPlayer "w1" (some .werewolf) true true true,
     mkPlayer "v1" (some .villager) true false true,
     mkPlayer "v2" (some .villager) true false true,
     mkPlayer "v3" (some .villager) false]

/-- An ended game-logic state (werewolves already won). -/
def endedState : WerewolfGameState :=
  { baseState .ended 3
      [mkPlayer "w1" (some .werewolf) true,
       mkPlayer "v1" (some .villager) false,
       mkPlayer "v2" (some .villager) false] with
    winner := WinCondition.werewolves }

/-- An ended Convex game document. -/
def convexEndedGame : ConvexGame :=
  ⟨GamePhase.ended, 3, WinCondition.werewolves,
   [mkPlayer "w1" (some .werewolf) true,
    mkPlayer "v1" (some .villager) false], []⟩

/-- A voting-phase state used to exercise `submitVote` resubmission. -/
def votingState : WerewolfGameState :=
  baseState .voting 1
    [mkPlayer "w1" (some .werewolf) true,
     mkPlayer "v1" (some .villager) true,
     mkPlayer "v2" (some .villager) true,
     mkPlayer "v3" (some .villager) true]

/-- A Convex voting-phase game with one vote already on file for `v1`. -/
def convexVotingGame : ConvexGame :=
  ⟨GamePhase.voting, 1, WinCondition.none,
   [mkPlayer "w1" (some .werewolf) true,
    mkPlayer "v1" (some .villager) true false true,
    mkPlayer "v2" (some .villager) true,
    mkPlayer "dead1" (some .villager) false],
   [⟨"v1", some "w1", 1⟩]⟩

/-- A night-phase state whose sole kill action targets the protected
player — the C4 witness scenario. -/
def protectedNightState : WerewolfGameState :=
  baseState .night 1
    [mkPlayer "w1" (some .werewolf) true true,
     mkPlayer "v1" (some .villager) true,
     mkPlayer "d1" (some .doctor) true true,
     mkPlayer "v2" (some .villager) true]
    [⟨"w1", some "v1", .kill, 1⟩, ⟨"d1", some "v1", .protect, 1⟩]

/-- A night-phase state whose kill is unprotected — the C10 witness
scenario (the advance both kills `v1` and wipes `killedTonight`). -/
def unprotectedNightState : WerewolfGameState :=
  baseState .night 1
    [mkPlayer "w1" (some .werewolf) true true,
     mkPlayer "v1" (some .villager) true,
     mkPlayer "v2" (some .villager) true,
     mkPlayer "v3" (some .villager) true]
    [⟨"w1", some "v1", .kill, 1⟩]

/-- The spec's voting scenario: three alive players, two votes for `A`,
one vote for `B`. -/
def clearLeaderState : WerewolfGameState :=
  baseState .voting 1
    [mkPlayer "A" (some .villager) true false true,
     mkPlayer "B" (some .werewolf) true false true,
     mkPlayer "C" (some .villager) true false true]
    [] [⟨"B", some "A", 1⟩, ⟨"C", some "A", 1⟩, ⟨"A", some "B", 1⟩]

/-- The player record of `A` in `clearLeaderState`. -/
def clearLeaderA : WerewolfPlayer := mkPlayer "A" (some .villager) true false true

/-- The spec's win-condition scenario: 5 alive players, 2 werewolves. -/
def fiveSeatRoster : List WerewolfPlayer :=
  [mkPlayer "w1" (some .werewolf) true,
   mkPlayer "w2" (some .werewolf) true,
   mkPlayer "v1" (some .villager) true,
   mkPlayer "v2" (some .villager) true,
   mkPlayer "v3" (some .villager) true]

/-- Settings accepted by `validateRoleConfiguration`: 8 players, 3 wolves. -/
def validSettings : WerewolfSettings := ⟨8, 3, [.seer, .doctor]⟩

/-- Settings with an odd roster and the werewolf count strictly below half
the roster (7 players, 3 wolves, 3 < 3.5), which the code rejects. -/
def oddSettings : WerewolfSettings := ⟨7, 3, []⟩

/-- A day-phase state with an alive voter who has not voted — the C8
counterexample scenario for `canVote`. -/
def dayState : WerewolfGameState :=
  baseState .day 1
    [mkPlayer "w1" (some .werewolf) true,
     mkPlayer "v1" (some .villager) true,
     mkPlayer "v2" (some .villager) true]

/-- The alive, not-yet-voted voter of `dayState`. -/
def dayVoter : WerewolfPlayer := mkPlayer "v1" (some .villager) true

/-- The alive target of `dayState`. -/
def dayTarget : WerewolfPlayer := mkPlayer "v2" (some .villager) true

/-- Fallback options of a doctor whose own id is excluded from the
candidate pool (as the Convex caller builds it). -/
def doctorOptions : FallbackOptions :=
  ⟨Difficulty.easy, Option.none, Option.none, some "me"⟩

/-- An oracle outcome whose self-protection coin came up true. -/
def doctorRoll : RandOracle := ⟨true, fun _ => 0⟩

/-- Candidate pool for the C9 witness: two villagers. -/
def wolfCandidates : List Candidate := [⟨"v1", "Vera"⟩, ⟨"v2", "Wes"⟩]

/-- Hard-difficulty werewolf fallback options for the C9 witness. -/
def wolfOptions : FallbackOptions :=
  ⟨Difficulty.hard, some ["w2"], Option.none, some "w1"⟩

/-- An in-range oracle outcome (every index draw comes up 0, the
self-protection coin false). -/
def zeroRand : RandOracle := ⟨false, fun _ => 0⟩

/-- `convexVotingGame` after `v1` resubmits a vote for `v2`: the single
existing row is patched in place. -/
def convexVotingPatched : ConvexGame :=
  { convexVotingGame with votes := [⟨"v1", some "v2", 1⟩] }

/-- The alive, not-yet-voted voter used by the C8 witness. -/
def votingVoter : WerewolfPlayer := mkPlayer "v1" (some .villager) true

/-- The alive target used by the C8 witness. -/
def votingTarget : WerewolfPlayer := mkPlayer "v2" (some .villager) true

/-! ### Theorems -/

/-- C1: at the game-logic entry points (`advanceGameToNextPhase`, which in
phase `resolution` performs the plain `transitionPhase`), a resolution-phase
state whose win evaluation yields `none` advances to phase `night`, with
`round` incremented by exactly 1 and every player's `hasActedThisRound` and
`hasVotedThisRound` cleared to `false`. -/
theorem resolution_advance_starts_new_round (s : WerewolfGameState)
    (h : Option PlayerId) (hphase : s.phase = .resolution)
    (hwin : checkWinCondition s.players = WinCondition.none) :
    advanceGameToNextPhase s h = transitionPhase s ∧
    (transitionPhase s).phase = .night ∧
    (transitionPhase s).round = s.round + 1 ∧
    ∀ p ∈ (transitionPhase s).players,
      p.hasActedThisRound = false ∧ p.hasVotedThisRound = false := by
  have hadv : advanceGameToNextPhase s h = transitionPhase s := by
    unfold advanceGameToNextPhase canTransitionPhase
    rw [hphase]
    simp
  refine ⟨hadv, ?_⟩
  unfold transitionPhase
  rw [hphase, hwin]
  simp only [getNextPhase, beq_self_eq_true, Bool.not_true, Bool.and_self,
    Bool.false_eq_true, if_false, if_true, Bool.not_false, Bool.true_eq_false]
  refine ⟨trivial, trivial, ?_⟩
  intro p hp
  simp only [List.mem_map] at hp
  obtain ⟨q, _, rfl⟩ := hp
  exact ⟨rfl, rfl⟩

/-- C1 witness: advancing the concrete undecided resolution-phase state
`resolutionState` (round 2) yields phase `night` and round 3. -/
theorem resolution_advance_starts_new_round_example :
    (transitionPhase resolutionState).phase = .night ∧
    (transitionPhase resolutionState).round = resolutionState.round + 1 :=
  ⟨(resolution_advance_starts_new_round resolutionState Option.none
      (by decide) (by decide)).2.1,
   (resolution_advance_starts_new_round resolutionState Option.none
      (by decide) (by decide)).2.2.1⟩

/-- C1 counterexample: the Convex `advancePhase` mutation is also a
phase-advance entry point, and on `convexResolutionGame` — a
resolution-phase game, reachable by four `advancePhase` steps from a fresh
game, whose win evaluation yields `none` — it moves to `ended`, not
`night`, and leaves `round` unchanged. -/
theorem convex_resolution_advance_diverges :
    convexResolutionGame.phase = .resolution ∧
    checkWinCondition convexResolutionGame.players = WinCondition.none ∧
    (convexAdvancePhase convexResolutionGame).phase = .ended ∧
    (convexAdvancePhase convexResolutionGame).phase ≠ .night ∧
    (convexAdvancePhase convexResolutionGame).round =
      convexResolutionGame.round := by decide

/-- C2 counterexample: the state the Convex `advancePhase` mutation
produces from `convexResolutionGame` (itself reached from a fresh game by
`advancePhase` steps alone) has `phase = ended` while `winner = none`,
violating the claimed equivalence on advance-reachable states. -/
theorem convex_ended_with_no_winner :
    convexResolutionGame.winner = WinCondition.none ∧
    (convexAdvancePhase convexResolutionGame).phase = .ended ∧
    (convexAdvancePhase convexResolutionGame).winner = WinCondition.none := by
  decide

/-- C3 counterexample: the game-logic `submitVote` appends instead of
overwriting — after `v1` submits twice in the same round, two Vote records
for `(v1, round 1)` exist and the tally counts the single voter `v1` twice
for target `v2`. -/
theorem submitVote_appends_duplicate :
    ((submitVote (submitVote votingState "v1" (some "v2")) "v1"
        (some "v2")).votes.filter
      (fun v => v.voterId == "v1" && v.round == (1 : Nat))).length = 2 ∧
    lookupCount
      (tallyVotes (submitVote (submitVote votingState "v1" (some "v2")) "v1"
        (some "v2"))).results "v2" = 2 := by decide

/-- C6: `checkWinCondition` returns `werewolves` iff alive werewolves ≥
alive non-werewolves; otherwise `villagers` iff no werewolf is alive;
otherwise `none`. -/
theorem checkWinCondition_matches_roster_counts (players : List WerewolfPlayer) :
    (checkWinCondition players = .werewolves ↔
      aliveNonWerewolfCount players ≤ aliveWerewolfCount players) ∧
    (aliveWerewolfCount players < aliveNonWerewolfCount players →
      (checkWinCondition players = .villagers ↔
        aliveWerewolfCount players = 0)) ∧
    (aliveWerewolfCount players < aliveNonWerewolfCount players →
      aliveWerewolfCount players ≠ 0 →
      checkWinCondition players = WinCondition.none) := by
  simp only [checkWinCondition, aliveWerewolfCount, aliveNonWerewolfCount]
  split_ifs with h1 h2 <;> simp_all

/-- C6 witness: on the five-seat roster with two werewolves the outcome is
`none`; killing one villager makes werewolves equal non-werewolves and the
outcome `werewolves`. -/
theorem checkWinCondition_matches_roster_counts_example :
    checkWinCondition fiveSeatRoster = WinCondition.none ∧
    aliveNonWerewolfCount fiveSeatRoster ≤ 2 + aliveWerewolfCount fiveSeatRoster :=
  ⟨(checkWinCondition_matches_roster_counts fiveSeatRoster).2.2
      (by decide) (by decide),
   by decide⟩

/-- C7 (amended): `validateRoleConfiguration` accepts exactly when
`playerCount ≥ 4`, `werewolfCount ≥ 1`,
`werewolfCount < ⌊playerCount / 2⌋` (floor division — strictly stronger
than `werewolfCount < playerCount / 2` for odd rosters), and the number of
requested roles does not exceed `playerCount`. -/
theorem validateRoleConfiguration_exact (settings : WerewolfSettings) :
    (validateRoleConfiguration settings).valid = true ↔
      (4 ≤ settings.playerCount ∧ 1 ≤ settings.werewolfCount ∧
       settings.werewolfCount < Int.fdiv settings.playerCount 2 ∧
       (settings.includeRoles.length : Int) ≤ settings.playerCount) := by
  unfold validateRoleConfiguration
  split_ifs <;> simp_all

/-- C7 witness: 8 players with 3 werewolves and two special roles are
accepted. -/
theorem validateRoleConfiguration_exact_example :
    (validateRoleConfiguration validSettings).valid = true :=
  (validateRoleConfiguration_exact validSettings).mpr (by decide)

/-- C7 counterexample: 7 players with 3 werewolves satisfy every condition
of the claim — in particular `3 < 7/2` — yet the code rejects them,
because it tests `werewolfCount ≥ Math.floor(playerCount / 2)`. -/
theorem validateRoleConfiguration_rejects_odd_half :
    4 ≤ oddSettings.playerCount ∧ 1 ≤ oddSettings.werewolfCount ∧
    2 * oddSettings.werewolfCount < oddSettings.playerCount ∧
    (oddSettings.includeRoles.length : Int) ≤ oddSettings.playerCount ∧
    (validateRoleConfiguration oddSettings).valid = false := by decide

/-- C8 counterexample: in `dayState` the voter `v1` is alive, has not yet
voted, and names an alive target, yet `canVote` rejects the vote because
the phase is `day` — while the Convex `castVote` in the very same situation
accepts votes, including one naming the dead player `dead1`. -/
theorem canVote_rejects_day_phase :
    dayVoter.isAlive = true ∧ dayVoter.hasVotedThisRound = false ∧
    dayState.phase = .day ∧ dayTarget.isAlive = true ∧
    (canVote dayVoter (some dayTarget) dayState).valid = false ∧
    (castVote convexVotingGame "v2" (some "dead1")).isOk = true := by decide

/-- C9 counterexample: for a doctor at night whose own id is not among the
supplied candidates (exactly how the Convex caller builds the pool), a
true self-protection roll makes `fallbackDecision` return `selfId`, an id
outside the candidate list. -/
theorem fallbackDecision_escapes_candidates :
    (fallbackDecision "doctor" "night" [⟨"ally1", "Alice"⟩] doctorOptions
        doctorRoll).targetId = some "me" ∧
    ("me" ∈ ([⟨"ally1", "Alice"⟩] : List Candidate).map Candidate.id → False) := by
  decide

/-- `resolveNightActions` only rewrites players and the night report
fields. -/
theorem resolveNightActions_phase_winner (s : WerewolfGameState) :
    (resolveNightActions s).phase = s.phase ∧
    (resolveNightActions s).winner = s.winner :=
  ⟨rfl, rfl⟩

/-- `resolveVoting` only rewrites players and `eliminatedToday`. -/
theorem resolveVoting_phase_winner (s : WerewolfGameState)
    (h : Option PlayerId) :
    (resolveVoting s h).phase = s.phase ∧
    (resolveVoting s h).winner = s.winner := by
  unfold resolveVoting
  dsimp only
  repeat' split
  all_goals exact ⟨rfl, rfl⟩

/-- The game-logic transition table never produces `ended`: only the win
check does. -/
theorem getNextPhase_ne_ended (p : GamePhase) (h : p ≠ .ended) :
    getNextPhase p ≠ .ended := by
  cases p <;> simp_all [getNextPhase]

/-- `advanceGameToNextPhase` is the identity on ended games. -/
theorem advance_on_ended (s : WerewolfGameState) (h : Option PlayerId)
    (hs : s.phase = .ended) : advanceGameToNextPhase s h = s := by
  unfold advanceGameToNextPhase canTransitionPhase
  rw [hs]
  simp

/-- `transitionPhase` preserves the winner/phase equivalence on undecided,
unfinished states. -/
theorem transitionPhase_invariant (s : WerewolfGameState)
    (hph : s.phase ≠ .ended) (hw : s.winner = WinCondition.none) :
    ((transitionPhase s).winner ≠ WinCondition.none ↔
      (transitionPhase s).phase = .ended) := by
  unfold transitionPhase
  dsimp only
  split_ifs with hwc h2
  · have hne : checkWinCondition s.players ≠ WinCondition.none := by
      simpa using hwc
    simp [hne]
  · simp [hw, getNextPhase_ne_ended s.phase hph]
  · simp [hw, getNextPhase_ne_ended s.phase hph]

/-- C2 (amended): `ended` is absorbing at both phase-advance entry points
(the game-logic `advanceGameToNextPhase` and the Convex `advancePhase` both
return the state unchanged), and the game-logic advance preserves the
invariant `winner ≠ none ↔ phase = ended`, so that equivalence holds in
every state reachable through `advanceGameToNextPhase` from a state
satisfying it.  (The Convex `advancePhase` does not preserve it — see the
counterexample.) -/
theorem ended_absorbing_and_invariant_preserved (s : WerewolfGameState)
    (h : Option PlayerId) (g : ConvexGame)
    (hs : s.phase = .ended) (hg : g.phase = .ended) :
    advanceGameToNextPhase s h = s ∧
    convexAdvancePhase g = g ∧
    ∀ (s' : WerewolfGameState) (h' : Option PlayerId),
      (s'.winner ≠ WinCondition.none ↔ s'.phase = .ended) →
      ((advanceGameToNextPhase s' h').winner ≠ WinCondition.none ↔
        (advanceGameToNextPhase s' h').phase = .ended) := by
  refine ⟨advance_on_ended s h hs, ?_, ?_⟩
  · unfold convexAdvancePhase
    rw [hg]
    simp
  · intro s' h' hinv
    by_cases hph : s'.phase = .ended
    · rw [advance_on_ended s' h' hph]; exact hinv
    · have hw : s'.winner = WinCondition.none := by
        by_contra hne
        exact hph (hinv.mp hne)
      unfold advanceGameToNextPhase
      split_ifs with h1 h2 h3
      · exact hinv
      · exact transitionPhase_invariant (resolveNightActions s')
          (by rw [(resolveNightActions_phase_winner s').1]; exact hph)
          (by rw [(resolveNightActions_phase_winner s').2]; exact hw)
      · exact transitionPhase_invariant (resolveVoting s' h')
          (by rw [(resolveVoting_phase_winner s' h').1]; exact hph)
          (by rw [(resolveVoting_phase_winner s' h').2]; exact hw)
      · exact transitionPhase_invariant s' hph hw

/-- C2 witness: both entry points leave the concrete ended games unchanged. -/
theorem ended_absorbing_example :
    advanceGameToNextPhase endedState Option.none = endedState ∧
    convexAdvancePhase convexEndedGame = convexEndedGame :=
  ⟨(ended_absorbing_and_invariant_preserved endedState Option.none
      convexEndedGame (by decide) (by decide)).1,
   (ended_absorbing_and_invariant_preserved endedState Option.none
      convexEndedGame (by decide) (by decide)).2.1⟩

/-- C4: when the computed kill target coincides with the protect target,
night resolution leaves every `isAlive` unchanged, reports no kill and
reports the target saved — in the game-logic resolver and, for the Convex
resolver, no player is patched dead when the majority kill target is
protected. -/
theorem protected_kill_is_saved (s : WerewolfGameState)
    (heq : killTargetOf s = protectTargetOf s) :
    (resolveNightActions s).players = s.players ∧
    (resolveNightActions s).killedTonight = Option.none ∧
    (resolveNightActions s).savedTonight = killTargetOf s ∧
    ∀ (actions : List ConvexAction) (t : PlayerId),
      convexKillTarget actions = some t →
      (convexProtectTargets actions).contains t = true →
      convexResolveNight actions = Option.none := by
  refine ⟨?_, ?_, ?_, ?_⟩
  · unfold resolveNightActions
    cases hk : killTargetOf s with
    | none => simp [hk]
    | some kt =>
      have hp : protectTargetOf s = some kt := by rw [← heq, hk]
      simp [hk, hp]
  · unfold resolveNightActions
    cases hk : killTargetOf s with
    | none => simp [hk]
    | some kt =>
      have hp : protectTargetOf s = some kt := by rw [← heq, hk]
      simp [hk, hp]
  · unfold resolveNightActions
    cases hk : killTargetOf s with
    | none => simp [hk]
    | some kt =>
      have hp : protectTargetOf s = some kt := by rw [← heq, hk]
      simp [hk, hp]
  · intro actions t hk hmem
    unfold convexResolveNight
    rw [hk]
    simp only [hmem]
    rfl

/-- C4 witness: in `protectedNightState` the werewolf kill on `v1` meets
the doctor protection on `v1`: nobody dies, `savedTonight = v1`. -/
theorem protected_kill_is_saved_example :
    (resolveNightActions protectedNightState).players =
      protectedNightState.players ∧
    (resolveNightActions protectedNightState).killedTonight = Option.none ∧
    (resolveNightActions protectedNightState).savedTonight = some "v1" := by
  have h := protected_kill_is_saved protectedNightState (by decide)
  exact ⟨h.1, h.2.1, by rw [h.2.2.1]; decide⟩

/-- C10: whenever the advance entry point takes the table transition (win
evaluation over the resolved roster yields `none`), the advanced state has
`eliminatedToday`, `killedTonight` and `savedTonight` all `null` — also on
the very advance that leaves `night` or `voting`, whose own resolution
result survives only through the players' `isAlive` fields. -/
theorem table_transition_clears_reports (s : WerewolfGameState)
    (h : Option PlayerId)
    (hc : (canTransitionPhase s).canTransition = true)
    (hwin : checkWinCondition (resolvedFor s h).players = WinCondition.none) :
    (advanceGameToNextPhase s h).eliminatedToday = Option.none ∧
    (advanceGameToNextPhase s h).killedTonight = Option.none ∧
    (advanceGameToNextPhase s h).savedTonight = Option.none ∧
    (s.phase = .night →
      (advanceGameToNextPhase s h).players = (resolveNightActions s).players) ∧
    (s.phase = .voting →
      (advanceGameToNextPhase s h).players = (resolveVoting s h).players) := by
  have hadv : advanceGameToNextPhase s h = transitionPhase (resolvedFor s h) := by
    unfold advanceGameToNextPhase resolvedFor
    rw [hc]
    simp only [Bool.not_true, Bool.false_eq_true, if_false]
    split_ifs <;> rfl
  rw [hadv]
  unfold transitionPhase
  rw [hwin]
  simp only [beq_self_eq_true, Bool.not_true, Bool.false_eq_true, if_false]
  refine ⟨trivial, trivial, trivial, ?_, ?_⟩
  · intro hn
    have hres : resolvedFor s h = resolveNightActions s := by
      unfold resolvedFor
      rw [hn]
      simp
    rw [hres]
    have hph : (resolveNightActions s).phase = s.phase :=
      (resolveNightActions_phase_winner s).1
    rw [hph, hn]
    simp [getNextPhase]
  · intro hv
    have hres : resolvedFor s h = resolveVoting s h := by
      unfold resolvedFor
      rw [hv]
      simp
    rw [hres]
    have hph : (resolveVoting s h).phase = s.phase :=
      (resolveVoting_phase_winner s h).1
    rw [hph, hv]
    simp [getNextPhase]

/-- C10 witness: advancing `unprotectedNightState` kills `v1` yet the
advanced state reports `killedTonight = null`; the kill persists only in
the roster. -/
theorem table_transition_clears_reports_example :
    (advanceGameToNextPhase unprotectedNightState Option.none).killedTonight =
      Option.none ∧
    (advanceGameToNextPhase unprotectedNightState Option.none).players =
      (resolveNightActions unprotectedNightState).players := by
  have h := table_transition_clears_reports unprotectedNightState Option.none
    (by decide) (by decide)
  exact ⟨h.2.1, h.2.2.2.1 (by decide)⟩

/-- An in-range `getD` hits a genuine list element. -/
theorem getD_mem {α : Type} (l : List α) (i : Nat) (d : α)
    (h : i < l.length) : l.getD i d ∈ l := by
  induction l generalizing i with
  | nil => simp at h
  | cons x xs ih =>
    cases i with
    | zero => exact List.mem_cons_self x xs
    | succ n => exact List.mem_cons_of_mem x (ih n (by simpa using h))

/-- On a nonempty pool with in-range random draws, `selectByDifficulty`
picks a member of the pool. -/
theorem selectByDifficulty_mem (targets : List Candidate)
    (options : FallbackOptions) (rand : RandOracle)
    (hne : targets ≠ []) (hpick : ∀ n, 0 < n → rand.pick n < n) :
    ∃ c ∈ targets,
      (selectByDifficulty targets options rand).targetId = some c.id := by
  have hlen : 0 < targets.length := List.length_pos.mpr hne
  unfold selectByDifficulty
  cases hdiff : options.difficulty with
  | easy =>
    exact ⟨targets.getD (rand.pick targets.length) ⟨"", ""⟩,
      getD_mem _ _ _ (hpick _ hlen), rfl⟩
  | medium =>
    have hpool : 0 < (targets.take (max (targets.length / 2) 1)).length := by
      rw [List.length_take]
      omega
    refine ⟨(targets.take (max (targets.length / 2) 1)).getD
      (rand.pick (targets.take (max (targets.length / 2) 1)).length) ⟨"", ""⟩,
      ?_, rfl⟩
    exact List.take_subset _ _ (getD_mem _ _ _ (hpick _ hpool))
  | hard =>
    cases targets with
    | nil => exact absurd rfl hne
    | cons x xs =>
      cases hres : options.investigationResults with
      | none => exact ⟨x, List.mem_cons_self x xs, rfl⟩
      | some results =>
        dsimp only
        by_cases hre : (!results.isEmpty) = true
        · rw [if_pos hre]
          cases hu : (x :: xs).filter
              (fun t => !((results.map (·.playerId)).contains t.id)) with
          | nil => exact ⟨x, List.mem_cons_self x xs, rfl⟩
          | cons u us =>
            refine ⟨u, ?_, rfl⟩
            exact List.mem_of_mem_filter (hu ▸ List.mem_cons_self u us)
        · rw [if_neg hre]
          exact ⟨x, List.mem_cons_self x xs, rfl⟩

/-- The ally filter never invents candidates. -/
theorem allyFilteredTargets_subset (role : String)
    (candidates : List Candidate) (options : FallbackOptions) :
    ∀ c ∈ allyFilteredTargets role candidates options, c ∈ candidates := by
  intro c hc
  unfold allyFilteredTargets at hc
  cases hkw : options.knownWerewolves with
  | none => rw [hkw] at hc; exact hc
  | some wolves =>
    rw [hkw] at hc
    dsimp only at hc
    by_cases h1 : (role == "werewolf" && !wolves.isEmpty) = true
    · rw [if_pos h1] at hc
      by_cases h2 :
          0 < (candidates.filter (fun c => !(wolves.contains c.id))).length
      · rw [if_pos h2] at hc
        exact List.mem_of_mem_filter hc
      · rw [if_neg h2] at hc
        exact hc
    · rw [if_neg h1] at hc
      exact hc

/-- The ally filter keeps the pool nonempty (the exclusion is skipped when
it would empty it). -/
theorem allyFilteredTargets_ne_nil (role : String)
    (candidates : List Candidate) (options : FallbackOptions)
    (h : candidates ≠ []) :
    allyFilteredTargets role candidates options ≠ [] := by
  unfold allyFilteredTargets
  cases options.knownWerewolves with
  | none => exact h
  | some wolves =>
    dsimp only
    by_cases h1 : (role == "werewolf" && !wolves.isEmpty) = true
    · rw [if_pos h1]
      by_cases h2 :
          0 < (candidates.filter (fun c => !(wolves.contains c.id))).length
      · rw [if_pos h2]
        exact List.length_pos.mp h2
      · rw [if_neg h2]
        exact h
    · rw [if_neg h1]
      exact h

/-- The investigation pick comes from the supplied pool. -/
theorem investigationPick_mem (phase : String) (targets : List Candidate)
    (options : FallbackOptions) (c : Candidate)
    (h : investigationPick phase targets options = some c) : c ∈ targets := by
  unfold investigationPick at h
  cases hres : options.investigationResults with
  | none => rw [hres] at h; exact absurd h (by simp)
  | some results =>
    rw [hres] at h
    dsimp only at h
    by_cases h1 : ((phase == "voting" || phase == "day") && !results.isEmpty) = true
    · rw [if_pos h1] at h
      cases hf : results.find? (·.isWerewolf) with
      | none => rw [hf] at h; exact absurd h (by simp)
      | some knownWolf =>
        rw [hf] at h
        exact List.mem_of_find?_eq_some h
    · rw [if_neg h1] at h
      exact absurd h (by simp)

/-- C9 (amended): the fallback policy is total — an empty candidate list
yields a null target with the "no valid targets" result, and otherwise
(over every outcome of the internal randomness) it yields a decision whose
target is a member of the supplied candidate list, except that the doctor
night self-protection branch may return the actor's own `selfId`, which
the Convex caller excludes from the candidate pool. -/
theorem fallbackDecision_total_within_pool (role phase : String)
    (candidates : List Candidate) (options : FallbackOptions)
    (rand : RandOracle) (hpick : ∀ n, 0 < n → rand.pick n < n) :
    (candidates = [] →
      fallbackDecision role phase candidates options rand =
        ⟨Option.none, "No valid targets available"⟩) ∧
    (candidates ≠ [] →
      (fallbackDecision role phase candidates options rand).targetId.isSome
          = true ∧
      ∀ t, (fallbackDecision role phase candidates options rand).targetId
          = some t →
        t ∈ candidates.map Candidate.id ∨
        (role = "doctor" ∧ phase = "night" ∧ options.selfId = some t)) := by
  constructor
  · intro h
    subst h
    rfl
  · intro hne
    have hlen0 : ¬(candidates.length = 0) := by
      simpa [List.length_eq_zero] using hne
    unfold fallbackDecision
    rw [if_neg hlen0]
    dsimp only
    have hsub := allyFilteredTargets_subset role candidates options
    have htne := allyFilteredTargets_ne_nil role candidates options hne
    cases hip : investigationPick phase (allyFilteredTargets role candidates options)
        options with
    | some wolfTarget =>
      refine ⟨rfl, ?_⟩
      intro t ht
      left
      have hmem : wolfTarget ∈ candidates :=
        hsub _ (investigationPick_mem _ _ _ _ hip)
      have ht' : t = wolfTarget.id := by
        simpa using ht.symm
      rw [ht']
      exact List.mem_map_of_mem Candidate.id hmem
    | none =>
      cases hself : options.selfId with
      | some selfId =>
        dsimp only
        by_cases hcond : (role == "doctor" && phase == "night" && rand.selfRoll)
            = true
        · rw [if_pos hcond]
          refine ⟨rfl, ?_⟩
          intro t ht
          right
          have ht' : t = selfId := by simpa using ht.symm
          simp only [Bool.and_eq_true, beq_iff_eq] at hcond
          exact ⟨hcond.1.1, hcond.1.2, by rw [ht']⟩
        · rw [if_neg hcond]
          obtain ⟨c, hc, hcid⟩ := selectByDifficulty_mem
            (allyFilteredTargets role candidates options) options rand htne hpick
          rw [hcid]
          refine ⟨rfl, ?_⟩
          intro t ht
          left
          have ht' : t = c.id := by simpa using ht.symm
          rw [ht']
          exact List.mem_map_of_mem Candidate.id (hsub _ hc)
      | none =>
        dsimp only
        obtain ⟨c, hc, hcid⟩ := selectByDifficulty_mem
          (allyFilteredTargets role candidates options) options rand htne hpick
        rw [hcid]
        refine ⟨rfl, ?_⟩
        intro t ht
        left
        have ht' : t = c.id := by simpa using ht.symm
        rw [ht']
        exact List.mem_map_of_mem Candidate.id (hsub _ hc)

/-- C9 witness: with no provider, a hard-difficulty werewolf fallback over
a concrete two-villager pool completes with a target. -/
theorem fallbackDecision_total_within_pool_example :
    (fallbackDecision "werewolf" "night" wolfCandidates wolfOptions
        zeroRand).targetId.isSome = true :=
  ((fallbackDecision_total_within_pool "werewolf" "night" wolfCandidates
      wolfOptions zeroRand (fun n hn => by simpa using hn)).2
    (by decide)).1

/-- C8 (amended): the pure `canVote` accepts exactly when the voter is
alive, the phase is `voting` (votes during `day` are rejected, contrary to
the claim), the voter has not yet voted this round, and the target, when
non-null, is alive; every rejection carries a reason.  The Convex
`castVote` accepts exactly when the phase is `day` or `voting` and the
voter is found and alive — it checks neither prior votes (it overwrites)
nor target aliveness. -/
theorem vote_submission_validation (voter : WerewolfPlayer)
    (target : Option WerewolfPlayer) (s : WerewolfGameState)
    (g : ConvexGame) (vid : PlayerId) (tid : Option PlayerId) :
    ((canVote voter target s).valid = true ↔
      (voter.isAlive = true ∧ s.phase = .voting ∧
       voter.hasVotedThisRound = false ∧
       ∀ t, target = some t → t.isAlive = true)) ∧
    ((canVote voter target s).valid = false →
      ((canVote voter target s).reason).isSome = true) ∧
    ((castVote g vid tid).isOk = true ↔
      ((g.phase = .day ∨ g.phase = .voting) ∧
       ∃ p, g.players.find? (fun q => q.id == vid) = some p ∧
         p.isAlive = true)) := by
  refine ⟨?_, ?_, ?_⟩
  · cases target with
    | none => unfold canVote; split_ifs <;> simp_all
    | some tgt => unfold canVote; split_ifs <;> simp_all
  · unfold canVote
    split_ifs <;> simp
  · unfold castVote
    by_cases h1 :
        (!(g.phase == GamePhase.day) && !(g.phase == GamePhase.voting)) = true
    · rw [if_pos h1]
      constructor
      · intro hcon; exact absurd hcon (by simp [Except.isOk, Except.toBool])
      · rintro ⟨hph, -⟩
        cases hph <;> simp_all
    · rw [if_neg h1]
      have hph : g.phase = .day ∨ g.phase = .voting := by
        cases hcase : g.phase <;> simp_all
      cases hf : g.players.find? (fun q => q.id == vid) with
      | none =>
        dsimp only
        constructor
        · intro hcon; exact absurd hcon (by simp [Except.isOk, Except.toBool])
        · rintro ⟨-, p, hp, -⟩
          simp at hp
      | some w =>
        dsimp only
        by_cases ha : (!w.isAlive) = true
        · rw [if_pos ha]
          constructor
          · intro hcon; exact absurd hcon (by simp [Except.isOk, Except.toBool])
          · rintro ⟨-, p, hp, hpa⟩
            have hpw : p = w := by simpa using hp.symm
            subst hpw
            simp [hpa] at ha
        · rw [if_neg ha]
          constructor
          · intro _
            exact ⟨hph, w, rfl, by simpa using ha⟩
          · intro _
            cases (g.votes.filter (fun v => v.round == g.round)).find?
                (fun v => v.voterId == vid) <;> rfl

/-- C8 witness: in the concrete voting-phase state the alive, not-yet-voted
voter with an alive target is accepted by `canVote`. -/
theorem vote_submission_validation_example :
    (canVote votingVoter (some votingTarget) votingState).valid = true := by
  apply (vote_submission_validation votingVoter (some votingTarget) votingState
    convexVotingGame "v1" Option.none).1.mpr
  refine ⟨rfl, rfl, rfl, ?_⟩
  intro t ht
  cases ht
  rfl

/-- Patching a vote row in place preserves the number of rows. -/
theorem patchFirstVote_length (votes : List ConvexVote) (round : Nat)
    (voterId : PlayerId) (targetId : Option PlayerId) :
    (patchFirstVote votes round voterId targetId).length = votes.length := by
  induction votes with
  | nil => rfl
  | cons v rest ih =>
    unfold patchFirstVote
    split_ifs <;> simp [ih]

/-- Patching a vote row (which keeps its voter and round) preserves every
per-(voter, round) record count. -/
theorem patchFirstVote_recordCount (votes : List ConvexVote) (round : Nat)
    (voterId : PlayerId) (targetId : Option PlayerId) (v : PlayerId) (r : Nat) :
    voteRecordCount (patchFirstVote votes round voterId targetId) v r =
      voteRecordCount votes v r := by
  induction votes with
  | nil => rfl
  | cons w rest ih =>
    unfold patchFirstVote
    split_ifs with h
    · simp only [voteRecordCount, List.filter_cons]
      split_ifs <;> simp
    · simp only [voteRecordCount, List.filter_cons] at ih ⊢
      split_ifs <;> simp [ih]

/-- Record counts add over row concatenation. -/
theorem voteRecordCount_append (l1 l2 : List ConvexVote) (v : PlayerId)
    (r : Nat) :
    voteRecordCount (l1 ++ l2) v r =
      voteRecordCount l1 v r + voteRecordCount l2 v r := by
  unfold voteRecordCount
  rw [List.filter_append, List.length_append]

/-- When the round's rows hold no vote by this voter, the (voter, round)
record count is zero. -/
theorem voteRecordCount_eq_zero_of_find?_none (votes : List ConvexVote)
    (round : Nat) (voterId : PlayerId)
    (hfv : (votes.filter (fun v => v.round == round)).find?
      (fun v => v.voterId == voterId) = Option.none) :
    voteRecordCount votes voterId round = 0 := by
  unfold voteRecordCount
  rw [List.length_eq_zero, List.filter_eq_nil_iff]
  intro a ha hpred
  simp only [Bool.and_eq_true, beq_iff_eq] at hpred
  have hmem : a ∈ votes.filter (fun v => v.round == round) := by
    simp [List.mem_filter, ha, hpred.2]
  have := List.find?_eq_none.mp hfv a hmem
  simp [hpred.1] at this

/-- C3 (amended): through the Convex `castVote` entry point a resubmission
overwrites the existing (voter, round) row — the row list keeps its length
— and the at-most-one-record-per-(voter, round) invariant is preserved by
every accepted `castVote`.  (The game-logic `submitVote` instead appends
unconditionally; see the counterexample.  Its guard `canVote` rejects
voters with `hasVotedThisRound = true`, so only unguarded resubmission
duplicates.) -/
theorem castVote_overwrites_at_most_one (g : ConvexGame) (voterId : PlayerId)
    (targetId : Option PlayerId) (g' : ConvexGame)
    (hok : castVote g voterId targetId = Except.ok g') :
    ((∃ v ∈ g.votes, v.round = g.round ∧ v.voterId = voterId) →
      g'.votes.length = g.votes.length) ∧
    (∀ v r, voteRecordCount g.votes v r ≤ 1 →
      voteRecordCount g'.votes v r ≤ 1) := by
  unfold castVote at hok
  by_cases h1 :
      (!(g.phase == GamePhase.day) && !(g.phase == GamePhase.voting)) = true
  · rw [if_pos h1] at hok
    exact absurd hok (by simp)
  · rw [if_neg h1] at hok
    cases hf : g.players.find? (fun p => p.id == voterId) with
    | none =>
      rw [hf] at hok
      exact absurd hok (by simp)
    | some voter =>
      rw [hf] at hok
      dsimp only at hok
      by_cases ha : (!voter.isAlive) = true
      · rw [if_pos ha] at hok
        exact absurd hok (by simp)
      · rw [if_neg ha] at hok
        cases hfv : (g.votes.filter (fun v => v.round == g.round)).find?
            (fun v => v.voterId == voterId) with
        | some w =>
          rw [hfv] at hok
          injection hok with hg'
          subst hg'
          constructor
          · intro _
            exact patchFirstVote_length g.votes g.round voterId targetId
          · intro v r h
            rw [patchFirstVote_recordCount]
            exact h
        | none =>
          rw [hfv] at hok
          injection hok with hg'
          subst hg'
          constructor
          · rintro ⟨v, hv, hvr, hvid⟩
            exfalso
            have hmem : v ∈ g.votes.filter (fun u => u.round == g.round) := by
              simp [List.mem_filter, hv, hvr]
            have := List.find?_eq_none.mp hfv v hmem
            simp [hvid] at this
          · intro v r h
            rw [voteRecordCount_append]
            by_cases hvr : v = voterId ∧ r = g.round
            · rw [hvr.1, hvr.2,
                voteRecordCount_eq_zero_of_find?_none g.votes g.round voterId hfv]
              simp only [voteRecordCount, List.filter_cons, List.filter_nil]
              split_ifs <;> simp
            · have h0 : voteRecordCount [⟨voterId, targetId, g.round⟩] v r = 0 := by
                simp only [voteRecordCount, List.filter_cons, List.filter_nil]
                rw [if_neg]
                · rfl
                · simp only [Bool.and_eq_true, beq_iff_eq]
                  intro hcon
                  exact hvr ⟨hcon.1.symm, hcon.2.symm⟩
              rw [h0]
              simpa using h

/-- C3 witness: resubmitting `v1`'s vote through `castVote` on the concrete
game patches the single existing row — the row count stays 1. -/
theorem castVote_overwrites_at_most_one_example :
    convexVotingPatched.votes.length = convexVotingGame.votes.length :=
  (castVote_overwrites_at_most_one convexVotingGame "v1" (some "v2")
      convexVotingPatched (by rfl)).1
    ⟨⟨"v1", some "w1", 1⟩, by decide, by decide, by decide⟩

/-- Bumping `k` increments its count and leaves other counts unchanged. -/
theorem lookupCount_bumpCount (m : List (PlayerId × Nat)) (k k' : PlayerId) :
    lookupCount (bumpCount m k) k' =
      if k = k' then lookupCount m k' + 1 else lookupCount m k' := by
  induction m with
  | nil =>
    by_cases h : k = k' <;> simp [bumpCount, lookupCount, h]
  | cons p rest ih =>
    obtain ⟨k0, c0⟩ := p
    unfold bumpCount
    by_cases h0 : (k0 == k) = true
    · have hk : k0 = k := by simpa using h0
      subst hk
      rw [if_pos h0]
      by_cases h' : k0 = k'
      · subst h'
        simp [lookupCount]
      · simp [lookupCount, h']
    · rw [if_neg h0]
      have hk : k0 ≠ k := by simpa using h0
      by_cases h' : k0 = k'
      · subst h'
        have hkk : ¬(k = k0) := fun hcon => hk hcon.symm
        simp [lookupCount, hkk]
      · have hb : (k0 == k') = false := by simpa using h'
        simp [lookupCount, hb, ih]

/-- Keys after a bump: the old keys plus `k`. -/
theorem mem_keys_bumpCount (m : List (PlayerId × Nat)) (k k' : PlayerId) :
    k' ∈ (bumpCount m k).map Prod.fst ↔ k' ∈ m.map Prod.fst ∨ k' = k := by
  induction m with
  | nil => simp [bumpCount]
  | cons p rest ih =>
    obtain ⟨k0, c0⟩ := p
    unfold bumpCount
    by_cases h0 : (k0 == k) = true
    · have hk : k0 = k := by simpa using h0
      subst hk
      rw [if_pos h0]
      simp
      tauto
    · rw [if_neg h0]
      simp [ih]
      tauto

/-- Bumping preserves key distinctness. -/
theorem nodup_keys_bumpCount (m : List (PlayerId × Nat)) (k : PlayerId)
    (h : (m.map Prod.fst).Nodup) : ((bumpCount m k).map Prod.fst).Nodup := by
  induction m with
  | nil => simp [bumpCount]
  | cons p rest ih =>
    obtain ⟨k0, c0⟩ := p
    simp only [List.map_cons, List.nodup_cons] at h
    unfold bumpCount
    by_cases h0 : (k0 == k) = true
    · rw [if_pos h0]
      simp only [List.map_cons, List.nodup_cons]
      exact ⟨h.1, h.2⟩
    · rw [if_neg h0]
      simp only [List.map_cons, List.nodup_cons]
      refine ⟨?_, ih h.2⟩
      intro hmem
      rcases (mem_keys_bumpCount rest k k0).mp hmem with hm | he
      · exact h.1 hm
      · exact absurd he (by simpa using h0)

/-- Bumping preserves count positivity. -/
theorem pos_bumpCount (m : List (PlayerId × Nat)) (k : PlayerId)
    (h : ∀ p ∈ m, 0 < p.2) : ∀ p ∈ bumpCount m k, 0 < p.2 := by
  induction m with
  | nil =>
    intro p hp
    simp [bumpCount] at hp
    subst hp
    simp
  | cons q rest ih =>
    obtain ⟨k0, c0⟩ := q
    unfold bumpCount
    by_cases h0 : (k0 == k) = true
    · rw [if_pos h0]
      intro p hp
      rcases List.mem_cons.mp hp with rfl | hrest
      · simp
      · exact h p (List.mem_cons_of_mem _ hrest)
    · rw [if_neg h0]
      intro p hp
      rcases List.mem_cons.mp hp with rfl | hrest
      · exact h (k0, c0) (List.mem_cons_self _ _)
      · exact ih (fun q hq => h q (List.mem_cons_of_mem _ hq)) p hrest

/-- The count loop computes, for each target, its number of votes on top
of whatever the accumulator already held. -/
theorem buildResultsAux_lookup (votes : List Vote) :
    ∀ (acc : List (PlayerId × Nat)) (abst : Nat) (k : PlayerId),
      lookupCount (buildResultsAux acc abst votes).1 k =
        lookupCount acc k +
          (votes.filter (fun v => v.targetId == some k)).length := by
  induction votes with
  | nil =>
    intro acc abst k
    simp [buildResultsAux]
  | cons v rest ih =>
    intro acc abst k
    unfold buildResultsAux
    cases hv : v.targetId with
    | none =>
      rw [ih]
      simp [List.filter_cons, hv]
    | some t =>
      rw [ih, lookupCount_bumpCount]
      by_cases ht : t = k
      · subst ht
        simp [List.filter_cons, hv]
        omega
      · simp [List.filter_cons, hv, ht]

/-- The count table's keys are exactly the targets that received a vote. -/
theorem buildResultsAux_keys (votes : List Vote) :
    ∀ (acc : List (PlayerId × Nat)) (abst : Nat) (k : PlayerId),
      k ∈ ((buildResultsAux acc abst votes).1.map Prod.fst) ↔
        k ∈ acc.map Prod.fst ∨ ∃ v ∈ votes, v.targetId = some k := by
  induction votes with
  | nil =>
    intro acc abst k
    simp [buildResultsAux]
  | cons v rest ih =>
    intro acc abst k
    unfold buildResultsAux
    cases hv : v.targetId with
    | none =>
      rw [ih]
      simp [hv]
    | some t =>
      rw [ih, mem_keys_bumpCount]
      constructor
      · rintro ((hm | he) | ⟨w, hw, hwt⟩)
        · exact Or.inl hm
        · exact Or.inr ⟨v, List.mem_cons_self _ _, by rw [hv, he]⟩
        · exact Or.inr ⟨w, List.mem_cons_of_mem _ hw, hwt⟩
      · rintro (hm | ⟨w, hw, hwt⟩)
        · exact Or.inl (Or.inl hm)
        · rcases List.mem_cons.mp hw with rfl | hw'
          · left; right
            have hts : some t = some k := by rw [← hv, hwt]
            exact (Option.some.inj hts).symm
          · right
            exact ⟨w, hw', hwt⟩

/-- The count table has distinct keys. -/
theorem buildResultsAux_nodup (votes : List Vote) :
    ∀ (acc : List (PlayerId × Nat)) (abst : Nat),
      (acc.map Prod.fst).Nodup →
      (((buildResultsAux acc abst votes).1).map Prod.fst).Nodup := by
  induction votes with
  | nil =>
    intro acc abst h
    simpa [buildResultsAux] using h
  | cons v rest ih =>
    intro acc abst h
    unfold buildResultsAux
    cases v.targetId with
    | none => exact ih acc (abst + 1) h
    | some t => exact ih (bumpCount acc t) abst (nodup_keys_bumpCount acc t h)

/-- Every count in the table is positive. -/
theorem buildResultsAux_pos (votes : List Vote) :
    ∀ (acc : List (PlayerId × Nat)) (abst : Nat),
      (∀ p ∈ acc, 0 < p.2) →
      ∀ p ∈ (buildResultsAux acc abst votes).1, 0 < p.2 := by
  induction votes with
  | nil =>
    intro acc abst h
    simpa [buildResultsAux] using h
  | cons v rest ih =>
    intro acc abst h
    unfold buildResultsAux
    cases v.targetId with
    | none => exact ih acc (abst + 1) h
    | some t => exact ih (bumpCount acc t) abst (pos_bumpCount acc t h)

/-- A present key carries its looked-up count as an entry. -/
theorem mem_of_lookupCount (m : List (PlayerId × Nat)) (k : PlayerId)
    (h : k ∈ m.map Prod.fst) : (k, lookupCount m k) ∈ m := by
  induction m with
  | nil => simp at h
  | cons p rest ih =>
    obtain ⟨k0, c0⟩ := p
    by_cases h' : k0 = k
    · subst h'
      have hl : lookupCount ((k0, c0) :: rest) k0 = c0 := by simp [lookupCount]
      rw [hl]
      exact List.mem_cons_self _ _
    · have hb : (k0 == k) = false := by simpa using h'
      right
      simp only [lookupCount, hb, Bool.false_eq_true, if_false]
      apply ih
      simp only [List.map_cons, List.mem_cons] at h
      rcases h with h | h
      · exact absurd h.symm h'
      · exact h

/-- With distinct keys, each entry's count is its looked-up count. -/
theorem lookupCount_of_mem_nodup (m : List (PlayerId × Nat))
    (hnd : (m.map Prod.fst).Nodup) (k : PlayerId) (c : Nat)
    (hm : (k, c) ∈ m) : lookupCount m k = c := by
  induction m with
  | nil => simp at hm
  | cons p rest ih =>
    obtain ⟨k0, c0⟩ := p
    simp only [List.map_cons, List.nodup_cons] at hnd
    rcases List.mem_cons.mp hm with heq | hrest
    · have h1 : k = k0 := congrArg Prod.fst heq
      have h2 : c = c0 := congrArg Prod.snd heq
      subst h1
      subst h2
      simp [lookupCount]
    · have hne : k0 ≠ k := by
        intro hcon
        subst hcon
        exact hnd.1 (List.mem_map_of_mem Prod.fst hrest)
      have hb : (k0 == k) = false := by simpa using hne
      simp only [lookupCount, hb, Bool.false_eq_true, if_false]
      exact ih hnd.2 hrest

/-- The running maximum never decreases. -/
theorem le_listMax (m : List (PlayerId × Nat)) (maxV : Nat) :
    maxV ≤ listMax m maxV := by
  induction m generalizing maxV with
  | nil => exact le_rfl
  | cons p rest ih =>
    exact le_trans (le_max_left maxV p.2) (ih (max maxV p.2))

/-- Every entry is bounded by the running maximum's final value. -/
theorem entry_le_listMax (m : List (PlayerId × Nat)) (maxV : Nat)
    (p : PlayerId × Nat) (hp : p ∈ m) : p.2 ≤ listMax m maxV := by
  induction m generalizing maxV with
  | nil => simp at hp
  | cons q rest ih =>
    rcases List.mem_cons.mp hp with rfl | hrest
    · exact le_trans (le_max_right maxV p.2) (le_listMax rest (max maxV p.2))
    · exact ih (max maxV q.2) hrest

/-- The final maximum is bounded by any common upper bound. -/
theorem listMax_le (m : List (PlayerId × Nat)) (maxV b : Nat)
    (h1 : maxV ≤ b) (h2 : ∀ p ∈ m, p.2 ≤ b) : listMax m maxV ≤ b := by
  induction m generalizing maxV with
  | nil => exact h1
  | cons p rest ih =>
    exact ih (max maxV p.2)
      (max_le h1 (h2 p (List.mem_cons_self _ _)))
      (fun q hq => h2 q (List.mem_cons_of_mem _ hq))

/-- Any strict exceeder pushes the final maximum strictly up. -/
theorem lt_listMax_of_exists (m : List (PlayerId × Nat)) (maxV : Nat)
    (h : ∃ p ∈ m, maxV < p.2) : maxV < listMax m maxV := by
  obtain ⟨p, hp, hlt⟩ := h
  exact lt_of_lt_of_le hlt (entry_le_listMax m maxV p hp)

/-- Head step of `attainCount`. -/
theorem attainCount_cons (p : PlayerId × Nat) (rest : List (PlayerId × Nat))
    (v : Nat) :
    attainCount (p :: rest) v =
      (if p.2 = v then 1 else 0) + attainCount rest v := by
  simp only [attainCount, List.filter_cons]
  split_ifs <;> simp_all [Nat.add_comm]

/-- `any (· = v)` is exactly "at least one entry attains `v`". -/
theorem any_eq_one_le_attainCount (m : List (PlayerId × Nat)) (v : Nat) :
    m.any (fun p => p.2 == v) = decide (1 ≤ attainCount m v) := by
  induction m with
  | nil => simp [attainCount]
  | cons p rest ih =>
    rw [List.any_cons, attainCount_cons, ih]
    by_cases h : p.2 = v
    · simp [h]
    · have hb : (p.2 == v) = false := by simpa using h
      simp [h, hb]

/-- A list holding two distinct elements has length at least two. -/
theorem two_le_length_of_two_mem {α : Type} [DecidableEq α] {a b : α}
    {l : List α} (ha : a ∈ l) (hb : b ∈ l) (hne : a ≠ b) : 2 ≤ l.length := by
  have hb' : b ∈ l.erase a := (List.mem_erase_of_ne (fun h => hne h.symm)).mpr hb
  have h1 : 0 < (l.erase a).length := List.length_pos.mpr (List.ne_nil_of_mem hb')
  have h2 : (l.erase a).length = l.length - 1 := List.length_erase_of_mem ha
  have h3 : 0 < l.length := List.length_pos.mpr (List.ne_nil_of_mem ha)
  omega

/-- Two distinct keys attaining `v` force an attain count of at least 2. -/
theorem two_le_attainCount (m : List (PlayerId × Nat)) (t u : PlayerId)
    (v : Nat) (hne : t ≠ u) (hm1 : (t, v) ∈ m) (hm2 : (u, v) ∈ m) :
    2 ≤ attainCount m v := by
  have h1 : (t, v) ∈ m.filter (fun p => p.2 == v) := by
    simp [List.mem_filter, hm1]
  have h2 : (u, v) ∈ m.filter (fun p => p.2 == v) := by
    simp [List.mem_filter, hm2]
  exact two_le_length_of_two_mem h1 h2 (by simp [hne])

/-- When the only entries attaining `v` carry key `t` and one such entry
exists, the first attainer is `t`. -/
theorem firstAttain_eq_of_unique (m : List (PlayerId × Nat)) (t : PlayerId)
    (v : Nat) (hmem : (t, v) ∈ m)
    (huniq : ∀ p ∈ m, p.2 = v → p.1 = t) :
    firstAttain m v = some t := by
  induction m with
  | nil => simp at hmem
  | cons p rest ih =>
    unfold firstAttain
    by_cases h : p.2 = v
    · rw [if_pos h]
      rw [huniq p (List.mem_cons_self _ _) h]
    · rw [if_neg h]
      apply ih
      · rcases List.mem_cons.mp hmem with heq | hrest
        · exact absurd (congrArg Prod.snd heq.symm) h
        · exact hrest
      · exact fun q hq => huniq q (List.mem_cons_of_mem _ hq)

/-- With distinct keys, when every entry attaining `v` carries key `t`,
at most one entry attains `v`. -/
theorem attainCount_le_one (m : List (PlayerId × Nat))
    (hnd : (m.map Prod.fst).Nodup) (t : PlayerId) (v : Nat)
    (huniq : ∀ p ∈ m, p.2 = v → p.1 = t) : attainCount m v ≤ 1 := by
  induction m with
  | nil => simp [attainCount]
  | cons p rest ih =>
    simp only [List.map_cons, List.nodup_cons] at hnd
    rw [attainCount_cons]
    by_cases h : p.2 = v
    · have hp1 : p.1 = t := huniq p (List.mem_cons_self _ _) h
      have h0 : attainCount rest v = 0 := by
        simp only [attainCount, List.length_eq_zero, List.filter_eq_nil_iff]
        intro q hq hqv
        have hq1 : q.1 = t := huniq q (List.mem_cons_of_mem _ hq) (by simpa using hqv)
        exact hnd.1 (hp1 ▸ hq1 ▸ List.mem_map_of_mem Prod.fst hq)
      simp [h, h0]
    · simp only [h, if_false]
      have := ih hnd.2 (fun q hq => huniq q (List.mem_cons_of_mem _ hq))
      omega

/-- Head step of `firstAttain`. -/
theorem firstAttain_cons (k : PlayerId) (c : Nat)
    (rest : List (PlayerId × Nat)) (v : Nat) :
    firstAttain ((k, c) :: rest) v =
      if c = v then some k else firstAttain rest v := rfl

/-- Closed form of the `tallyVotes` leader/tie scan: when some entry
exceeds the running maximum, the scan ends at the overall maximum, led by
its first attainer, with a tie exactly when at least two entries attain
it; otherwise the initial leader stands and a tie is recorded iff one was
already recorded or some entry equals the running maximum. -/
theorem scanLeader_eq (m : List (PlayerId × Nat)) :
    ∀ (maxV : Nat) (leader : Option PlayerId) (isTie : Bool),
      scanLeader m maxV leader isTie =
        if ∃ p ∈ m, maxV < p.2 then
          (listMax m maxV, firstAttain m (listMax m maxV),
            decide (2 ≤ attainCount m (listMax m maxV)))
        else (maxV, leader, isTie || m.any (fun p => p.2 == maxV)) := by
  induction m with
  | nil =>
    intro maxV leader isTie
    simp [scanLeader]
  | cons q rest ih =>
    obtain ⟨k, c⟩ := q
    intro maxV leader isTie
    unfold scanLeader
    rcases lt_trichotomy maxV c with hlt | heqc | hgt
    · rw [if_pos hlt, ih]
      have hex0 : ∃ p ∈ (k, c) :: rest, maxV < p.2 :=
        ⟨(k, c), List.mem_cons_self _ _, hlt⟩
      rw [if_pos hex0]
      have hLcons : listMax ((k, c) :: rest) maxV = listMax rest c := by
        show listMax rest (max maxV c) = listMax rest c
        rw [max_eq_right hlt.le]
      by_cases hex : ∃ p ∈ rest, c < p.2
      · rw [if_pos hex]
        have hgtc : c < listMax rest c := lt_listMax_of_exists rest c hex
        rw [hLcons, firstAttain_cons, attainCount_cons,
            if_neg (by omega : ¬c = listMax rest c),
            if_neg (by omega : ¬c = listMax rest c)]
        simp
      · rw [if_neg hex]
        have hall : ∀ p ∈ rest, p.2 ≤ c := by
          intro p hp
          by_contra hcon
          exact hex ⟨p, hp, by omega⟩
        have hMx : listMax rest c = c :=
          le_antisymm (listMax_le rest c c le_rfl hall) (le_listMax rest c)
        rw [hLcons, hMx, firstAttain_cons, if_pos rfl, attainCount_cons,
            if_pos rfl, any_eq_one_le_attainCount]
        simp only [Prod.mk.injEq, Bool.false_or]
        refine ⟨by simp, by simp, ?_⟩
        exact decide_eq_decide.mpr (by omega)
    · have hnlt : ¬maxV < c := by omega
      rw [if_neg hnlt, if_pos (by omega : c = maxV), ih]
      by_cases hex : ∃ p ∈ rest, maxV < p.2
      · have hexc : ∃ p ∈ (k, c) :: rest, maxV < p.2 := by
          obtain ⟨p, hp, h⟩ := hex
          exact ⟨p, List.mem_cons_of_mem _ hp, h⟩
        rw [if_pos hex, if_pos hexc]
        have hLcons : listMax ((k, c) :: rest) maxV = listMax rest maxV := by
          show listMax rest (max maxV c) = listMax rest maxV
          rw [max_eq_left (by omega)]
        have hgtM : maxV < listMax rest maxV := lt_listMax_of_exists rest maxV hex
        rw [hLcons, firstAttain_cons, attainCount_cons,
            if_neg (by omega : ¬c = listMax rest maxV),
            if_neg (by omega : ¬c = listMax rest maxV)]
        simp
      · have hexc : ¬∃ p ∈ (k, c) :: rest, maxV < p.2 := by
          rintro ⟨p, hp, hplt⟩
          rcases List.mem_cons.mp hp with rfl | hrest
          · simp at hplt
            omega
          · exact hex ⟨p, hrest, hplt⟩
        rw [if_neg hex, if_neg hexc]
        simp only [Prod.mk.injEq]
        refine ⟨by simp, by simp, ?_⟩
        rw [List.any_cons]
        have hc : (c == maxV) = true := by simpa using heqc.symm
        rw [hc]
        simp
    · have hnlt : ¬maxV < c := by omega
      have hnc : ¬c = maxV := by omega
      rw [if_neg hnlt, if_neg hnc, ih]
      by_cases hex : ∃ p ∈ rest, maxV < p.2
      · have hexc : ∃ p ∈ (k, c) :: rest, maxV < p.2 := by
          obtain ⟨p, hp, h⟩ := hex
          exact ⟨p, List.mem_cons_of_mem _ hp, h⟩
        rw [if_pos hex, if_pos hexc]
        have hLcons : listMax ((k, c) :: rest) maxV = listMax rest maxV := by
          show listMax rest (max maxV c) = listMax rest maxV
          rw [max_eq_left (by omega)]
        have hgtM : maxV < listMax rest maxV := lt_listMax_of_exists rest maxV hex
        rw [hLcons, firstAttain_cons, attainCount_cons,
            if_neg (by omega : ¬c = listMax rest maxV),
            if_neg (by omega : ¬c = listMax rest maxV)]
        simp
      · have hexc : ¬∃ p ∈ (k, c) :: rest, maxV < p.2 := by
          rintro ⟨p, hp, hplt⟩
          rcases List.mem_cons.mp hp with rfl | hrest
          · simp at hplt
            omega
          · exact hex ⟨p, hrest, hplt⟩
        rw [if_neg hex, if_neg hexc]
        simp only [Prod.mk.injEq]
        refine ⟨by simp, by simp, ?_⟩
        rw [List.any_cons]
        have hc : (c == maxV) = false := by simpa using hnc
        rw [hc]
        simp

/-- The current round's count table: counts are the per-target vote
counts, keys are exactly the vote targets, distinct, with positive
counts. -/
theorem tally_table_spec (s : WerewolfGameState) :
    (∀ k, lookupCount (buildResults (currentRoundVotes s)).1 k =
      countVotesFor s k) ∧
    (∀ k, k ∈ ((buildResults (currentRoundVotes s)).1.map Prod.fst) ↔
      k ∈ currentVoteTargets s) ∧
    ((buildResults (currentRoundVotes s)).1.map Prod.fst).Nodup ∧
    (∀ p ∈ (buildResults (currentRoundVotes s)).1, 0 < p.2) := by
  refine ⟨?_, ?_, ?_, ?_⟩
  · intro k
    rw [buildResults, buildResultsAux_lookup]
    simp [lookupCount, countVotesFor]
  · intro k
    rw [buildResults, buildResultsAux_keys]
    simp [currentVoteTargets, List.mem_filterMap]
  · exact buildResultsAux_nodup _ _ _ (by simp)
  · exact buildResultsAux_pos _ _ _ (by simp)

/-- A target that received a vote has a positive vote count. -/
theorem countVotesFor_pos (s : WerewolfGameState) (k : PlayerId)
    (h : k ∈ currentVoteTargets s) : 0 < countVotesFor s k := by
  simp only [currentVoteTargets, List.mem_filterMap] at h
  obtain ⟨v, hv, hvt⟩ := h
  have hvf : v ∈ (currentRoundVotes s).filter (fun v => v.targetId == some k) :=
    List.mem_filter.mpr ⟨hv, by simp [hvt]⟩
  simp only [countVotesFor]
  exact List.length_pos.mpr (List.ne_nil_of_mem hvf)

/-- With a strict-majority target, `tallyVotes` elects it with no tie. -/
theorem tallyVotes_of_strict_max (s : WerewolfGameState) (t : PlayerId)
    (ht : t ∈ currentVoteTargets s)
    (hmax : ∀ u ∈ currentVoteTargets s, u ≠ t →
      countVotesFor s u < countVotesFor s t) :
    (tallyVotes s).leader = some t ∧ (tallyVotes s).isTie = false := by
  obtain ⟨hlook, hkeys, hnd, hpos⟩ := tally_table_spec s
  set m := (buildResults (currentRoundVotes s)).1 with hm
  have htk : t ∈ m.map Prod.fst := (hkeys t).mpr ht
  have hte : (t, countVotesFor s t) ∈ m := by
    have hmem := mem_of_lookupCount m t htk
    rwa [hlook t] at hmem
  have hpt : 0 < countVotesFor s t := countVotesFor_pos s t ht
  have hentry : ∀ p ∈ m, p.2 = countVotesFor s p.1 := by
    intro p hp
    have hl := lookupCount_of_mem_nodup m hnd p.1 p.2 hp
    rw [← hlook p.1, hl]
  have hkeymem : ∀ p ∈ m, p.1 ∈ currentVoteTargets s := by
    intro p hp
    exact (hkeys p.1).mp (List.mem_map_of_mem Prod.fst hp)
  have hub : ∀ p ∈ m, p.2 ≤ countVotesFor s t := by
    intro p hp
    rw [hentry p hp]
    by_cases hx : p.1 = t
    · rw [hx]
    · exact (hmax p.1 (hkeymem p hp) hx).le
  have hMx : listMax m 0 = countVotesFor s t :=
    le_antisymm (listMax_le m 0 _ (Nat.zero_le _) hub)
      (entry_le_listMax m 0 (t, countVotesFor s t) hte)
  have hex : ∃ p ∈ m, 0 < p.2 := ⟨(t, countVotesFor s t), hte, hpt⟩
  have huniq : ∀ p ∈ m, p.2 = countVotesFor s t → p.1 = t := by
    intro p hp hpv
    by_contra hne
    have hlt := hmax p.1 (hkeymem p hp) hne
    rw [← hentry p hp] at hlt
    omega
  constructor
  · show (scanLeader m 0 Option.none false).2.1 = some t
    rw [scanLeader_eq m 0 Option.none false, if_pos hex, hMx]
    exact firstAttain_eq_of_unique m t _ hte huniq
  · show (scanLeader m 0 Option.none false).2.2 = false
    rw [scanLeader_eq m 0 Option.none false, if_pos hex, hMx]
    have hle1 : attainCount m (countVotesFor s t) ≤ 1 :=
      attainCount_le_one m hnd t _ huniq
    exact decide_eq_false (by omega)

/-- With two distinct targets tied at the maximum, `tallyVotes` reports a
tie. -/
theorem tallyVotes_of_tie (s : WerewolfGameState) (t u : PlayerId)
    (hne : t ≠ u) (ht : t ∈ currentVoteTargets s)
    (hu : u ∈ currentVoteTargets s)
    (heq : countVotesFor s t = countVotesFor s u)
    (hmax : ∀ w ∈ currentVoteTargets s,
      countVotesFor s w ≤ countVotesFor s t) :
    (tallyVotes s).isTie = true := by
  obtain ⟨hlook, hkeys, hnd, hpos⟩ := tally_table_spec s
  set m := (buildResults (currentRoundVotes s)).1 with hm
  have hte : (t, countVotesFor s t) ∈ m := by
    have hmem := mem_of_lookupCount m t ((hkeys t).mpr ht)
    rwa [hlook t] at hmem
  have hue : (u, countVotesFor s t) ∈ m := by
    have hmem := mem_of_lookupCount m u ((hkeys u).mpr hu)
    rw [hlook u] at hmem
    rwa [← heq] at hmem
  have hpt : 0 < countVotesFor s t := countVotesFor_pos s t ht
  have hentry : ∀ p ∈ m, p.2 = countVotesFor s p.1 := by
    intro p hp
    have hl := lookupCount_of_mem_nodup m hnd p.1 p.2 hp
    rw [← hlook p.1, hl]
  have hub : ∀ p ∈ m, p.2 ≤ countVotesFor s t := by
    intro p hp
    rw [hentry p hp]
    exact hmax p.1 ((hkeys p.1).mp (List.mem_map_of_mem Prod.fst hp))
  have hMx : listMax m 0 = countVotesFor s t :=
    le_antisymm (listMax_le m 0 _ (Nat.zero_le _) hub)
      (entry_le_listMax m 0 (t, countVotesFor s t) hte)
  have hex : ∃ p ∈ m, 0 < p.2 := ⟨(t, countVotesFor s t), hte, hpt⟩
  show (scanLeader m 0 Option.none false).2.2 = true
  rw [scanLeader_eq m 0 Option.none false, if_pos hex, hMx]
  exact decide_eq_true (two_le_attainCount m t u _ hne hte hue)

/-- With no vote targets at all, `tallyVotes` elects nobody. -/
theorem tallyVotes_of_no_targets (s : WerewolfGameState)
    (h : currentVoteTargets s = []) :
    (tallyVotes s).leader = Option.none ∧ (tallyVotes s).isTie = false := by
  obtain ⟨hlook, hkeys, hnd, hpos⟩ := tally_table_spec s
  have hmnil : (buildResults (currentRoundVotes s)).1 = [] := by
    have hkeysnil :
        ((buildResults (currentRoundVotes s)).1.map Prod.fst) = [] := by
      rw [List.eq_nil_iff_forall_not_mem]
      intro k hk
      have hmem := (hkeys k).mp hk
      rw [h] at hmem
      simp at hmem
    exact List.map_eq_nil_iff.mp hkeysnil
  constructor
  · show (scanLeader (buildResults (currentRoundVotes s)).1 0
      Option.none false).2.1 = Option.none
    rw [hmnil]
    rfl
  · show (scanLeader (buildResults (currentRoundVotes s)).1 0
      Option.none false).2.2 = false
    rw [hmnil]
    rfl

/-- Unpack membership in the "kill `x`" player map. -/
theorem mem_kill_map (ps : List WerewolfPlayer) (x : PlayerId)
    (p : WerewolfPlayer)
    (hp : p ∈ ps.map
      (fun q => if q.id == x then { q with isAlive := false } else q)) :
    ∃ q ∈ ps,
      p = if q.id == x then { q with isAlive := false } else q := by
  obtain ⟨q, hq, hqe⟩ := List.mem_map.mp hp
  exact ⟨q, hq, hqe.symm⟩

/-- In the "kill `x`" player map, the player with id `x` is dead. -/
theorem kill_map_id_dead (ps : List WerewolfPlayer) (x : PlayerId)
    (p : WerewolfPlayer)
    (hp : p ∈ ps.map
      (fun q => if q.id == x then { q with isAlive := false } else q))
    (hid : p.id = x) : p.isAlive = false := by
  obtain ⟨q, hq, rfl⟩ := mem_kill_map ps x p hp
  by_cases h : (q.id == x) = true
  · simp [h]
  · rw [if_neg h] at hid ⊢
    exact absurd (by simpa using hid) h

/-- The "kill `x`" player map leaves every other player untouched. -/
theorem kill_map_other_mem (ps : List WerewolfPlayer) (x : PlayerId)
    (p : WerewolfPlayer)
    (hp : p ∈ ps.map
      (fun q => if q.id == x then { q with isAlive := false } else q))
    (hid : p.id ≠ x) : p ∈ ps := by
  obtain ⟨q, hq, rfl⟩ := mem_kill_map ps x p hp
  by_cases h : (q.id == x) = true
  · exfalso
    rw [if_pos h] at hid
    exact hid (by simpa using h)
  · rw [if_neg h]
    exact hq

/-- A player untouched by the "kill `x`" map stays a member of it. -/
theorem kill_map_mem_self (ps : List WerewolfPlayer) (x : PlayerId)
    (q : WerewolfPlayer) (hq : q ∈ ps) (hid : q.id ≠ x) :
    q ∈ ps.map
      (fun p => if p.id == x then { p with isAlive := false } else p) := by
  have hb : (q.id == x) = false := by simpa using hid
  have himg :
      (if q.id == x then { q with isAlive := false } else q) = q := by
    rw [hb]
    rfl
  have hmem := List.mem_map_of_mem
    (fun p => if p.id == x then { p with isAlive := false } else p) hq
  dsimp only at hmem
  rwa [himg] at hmem

/-- C5: `resolveVoting` eliminates exactly the unique strict-max target of
the round's votes; no votes or a tie at the maximum produce the defined
no-elimination result (`eliminatedToday = null`, players untouched); and
when the eliminated player is the Hunter, a supplied revenge target that
differs from the eliminated id and is currently alive is eliminated too. -/
theorem resolveVoting_strict_max_rule (s : WerewolfGameState)
    (h : Option PlayerId) :
    (currentVoteTargets s = [] →
      resolveVoting s h = { s with eliminatedToday := Option.none }) ∧
    (∀ t u, t ≠ u → t ∈ currentVoteTargets s → u ∈ currentVoteTargets s →
      countVotesFor s t = countVotesFor s u →
      (∀ w ∈ currentVoteTargets s, countVotesFor s w ≤ countVotesFor s t) →
      resolveVoting s h = { s with eliminatedToday := Option.none }) ∧
    (∀ t ep, t ∈ currentVoteTargets s →
      (∀ u ∈ currentVoteTargets s, u ≠ t →
        countVotesFor s u < countVotesFor s t) →
      s.players.find? (fun p => p.id == t) = some ep →
      (resolveVoting s h).eliminatedToday = some t ∧
      (∀ p ∈ (resolveVoting s h).players, p.id = t → p.isAlive = false) ∧
      (∀ p ∈ (resolveVoting s h).players, p.id ≠ t →
        (∀ rid, h = some rid → p.id ≠ rid) → p ∈ s.players) ∧
      (∀ rid, ep.role = some WerewolfRole.hunter → h = some rid → rid ≠ t →
        (∃ q ∈ s.players, q.id = rid ∧ q.isAlive = true) →
        ∀ p ∈ (resolveVoting s h).players, p.id = rid →
          p.isAlive = false)) := by
  refine ⟨?_, ?_, ?_⟩
  · intro h0
    obtain ⟨hl, htie⟩ := tallyVotes_of_no_targets s h0
    unfold resolveVoting
    dsimp only
    rw [hl, htie]
    rfl
  · intro t u hne ht hu heq hmax
    have htie := tallyVotes_of_tie s t u hne ht hu heq hmax
    unfold resolveVoting
    dsimp only
    rw [htie]
    rfl
  · intro t ep ht hmax hfind
    obtain ⟨hl, htie⟩ := tallyVotes_of_strict_max s t ht hmax
    have hres : resolveVoting s h =
        { s with
          players :=
            (match h with
             | some rid =>
               if ep.role == some WerewolfRole.hunter && !(rid == t) then
                 match (s.players.map
                     (fun p => if p.id == t then { p with isAlive := false }
                       else p)).find?
                     (fun p => p.id == rid && p.isAlive) with
                 | some _ =>
                   (s.players.map
                     (fun p => if p.id == t then { p with isAlive := false }
                       else p)).map
                     (fun p => if p.id == rid then { p with isAlive := false }
                       else p)
                 | Option.none =>
                   s.players.map
                     (fun p => if p.id == t then { p with isAlive := false }
                       else p)
               else
                 s.players.map
                   (fun p => if p.id == t then { p with isAlive := false }
                     else p)
             | Option.none =>
               s.players.map
                 (fun p => if p.id == t then { p with isAlive := false }
                   else p)),
          eliminatedToday := some t } := by
      unfold resolveVoting
      dsimp only
      rw [hl, htie]
      simp only [Option.isNone_some, Bool.false_or]
      rw [if_neg (by simp)]
      rw [hfind]
    rw [hres]
    refine ⟨rfl, ?_, ?_, ?_⟩
    · intro p hp hpid
      cases h with
      | none => exact kill_map_id_dead s.players t p hp hpid
      | some rid =>
        dsimp only at hp
        by_cases hbr : (ep.role == some WerewolfRole.hunter && !(rid == t))
            = true
        · rw [if_pos hbr] at hp
          have hrne : rid ≠ t := by
            have := (Bool.and_eq_true ..).mp hbr
            simpa using this.2
          cases hfr : (s.players.map
              (fun p => if p.id == t then { p with isAlive := false }
                else p)).find? (fun p => p.id == rid && p.isAlive) with
          | none =>
            rw [hfr] at hp
            exact kill_map_id_dead s.players t p hp hpid
          | some w =>
            rw [hfr] at hp
            have hp1 : p ∈ (s.players.map
                (fun q => if q.id == t then { q with isAlive := false }
                  else q)) :=
              kill_map_other_mem _ rid p hp (by rw [hpid]; exact fun hc => hrne hc.symm)
            exact kill_map_id_dead s.players t p hp1 hpid
        · rw [if_neg hbr] at hp
          exact kill_map_id_dead s.players t p hp hpid
    · intro p hp hpt hprid
      cases h with
      | none => exact kill_map_other_mem s.players t p hp hpt
      | some rid =>
        dsimp only at hp
        have hpr : p.id ≠ rid := hprid rid rfl
        by_cases hbr : (ep.role == some WerewolfRole.hunter && !(rid == t))
            = true
        · rw [if_pos hbr] at hp
          cases hfr : (s.players.map
              (fun p => if p.id == t then { p with isAlive := false }
                else p)).find? (fun p => p.id == rid && p.isAlive) with
          | none =>
            rw [hfr] at hp
            exact kill_map_other_mem s.players t p hp hpt
          | some w =>
            rw [hfr] at hp
            have hp1 := kill_map_other_mem _ rid p hp hpr
            exact kill_map_other_mem s.players t p hp1 hpt
        · rw [if_neg hbr] at hp
          exact kill_map_other_mem s.players t p hp hpt
    · intro rid hrole hh hrne hexq p hp hpid
      subst hh
      dsimp only at hp
      have hbr : (ep.role == some WerewolfRole.hunter && !(rid == t)) = true := by
        rw [hrole]
        simp [hrne]
      rw [if_pos hbr] at hp
      obtain ⟨q, hq, hqid, hqal⟩ := hexq
      have hqmem : q ∈ (s.players.map
          (fun p => if p.id == t then { p with isAlive := false } else p)) :=
        kill_map_mem_self s.players t q hq (by rw [hqid]; exact hrne)
      cases hfr : (s.players.map
          (fun p => if p.id == t then { p with isAlive := false }
            else p)).find? (fun p => p.id == rid && p.isAlive) with
      | none =>
        exfalso
        have hnone := List.find?_eq_none.mp hfr q hqmem
        rw [hqid, hqal] at hnone
        simp at hnone
      | some w =>
        rw [hfr] at hp
        exact kill_map_id_dead _ rid p hp hpid

/-- C5 witness: in the spec's scenario (three alive voters, two votes for
`A`, one for `B`) the voting resolution eliminates exactly `A`. -/
theorem resolveVoting_strict_max_rule_example :
    (resolveVoting clearLeaderState Option.none).eliminatedToday = some "A" :=
  ((resolveVoting_strict_max_rule clearLeaderState Option.none).2.2 "A"
      clearLeaderA (by decide) (by decide) (by decide)).1

end QuestLine
